import Mathlib

/-!
# A shallow embedding of `castfit` (src/castfit/__init__.py)

`castfit` is a runtime value-coercion and subtype-checking library for
Python.  This file embeds the data model and the operations needed to
settle the frozen claims:

* `Value` models the Python runtime values the library's tests exercise:
  `None`, `bool`, `int`, `float` (modelled as rationals), `str`, `list`,
  `tuple`, `dict`, and plain object instances.  `bytes`, `set`, `complex`,
  `datetime` and function values are outside the modelled universe, and
  the converters registered for them are correspondingly omitted (the
  `NUMERIC_TOWER` is restricted to its modelled members `bool, int,
  float`).
* `TypeForm` models the type expressions `castfit` handles: the special
  forms `Any`, `Never`/`NoReturn` (one object on the supported Python),
  the `None` type, `Literal[...]` and the bare `Literal` sentinel, unions
  (`Union[...]` and `X | Y` collapse to one form) and the bare
  `Union`/`UnionType` sentinel, the builtin classes, parameterized and
  bare `list`/`dict`/`tuple`, `Callable[...]` and the bare callable class,
  plus the two marker objects that occur inside tuple arguments:
  `Ellipsis` (`...`) and the empty tuple `()` (the argument of the legacy
  `typing.Tuple[()]` spelling, whose `get_args` is `((),)`; the builtin
  `tuple[()]` has an empty argument tuple, see `ga_repr` in CPython).
* `is_type`, `is_subtype`, `to_type`, `_get_casters`, the registered
  converters, `_to_class` and `castfit` are translated function by
  function.  Unbounded recursion in the source (nested containers,
  unions, class members) is made total with an explicit fuel parameter:
  every function returns `none` when the fuel runs out and `some r` when
  the source would have produced `r` within that recursion budget.
  Python's `==` and `is` tests against a fixed sentinel (`Any`, `Never`,
  `Literal`, `Ellipsis`, ...) are pure pattern matches; general `==`
  between two arbitrary values or type expressions is itself fueled.

Python classes are modelled by `ClassD`: the members of `cls.__mro__` in
method-resolution order (most derived first), each an attribute
dictionary (plain values or functions; properties are outside the
modelled universe, so no class is a dataclass and the `props` dictionary
of `_to_class` stays empty) plus its `__annotations__`.  Class types do
not occur nested inside `TypeForm` (no class-typed members), so
`_to_class` splits into the member loop over a `ClassD` (`toClassC`) and
the builtin fallback (`toClassBuiltinF`).
-/

/-- Python runtime values.  Floats are modelled as rationals; object
instances as association lists of attributes.  Object identity is not
modelled, so object equality is structural here; no modelled behaviour
compares instances. -/
inductive Value where
  | none : Value
  | bool (b : Bool) : Value
  | int (n : Int) : Value
  | float (q : Rat) : Value
  | str (s : String) : Value
  | list (xs : List Value) : Value
  | tuple (xs : List Value) : Value
  | dict (xs : List (Value × Value)) : Value
  | obj (attrs : List (String × Value)) : Value

/-- Python type expressions (`TypeForm` in the source).  A bare class and
its parameterized alias are distinguished because `typing.get_origin`
returns `None` for a bare class.  `ellipsisMark` and `unitMark` model the
`...` and `()` objects occurring inside tuple argument lists; `objT` is
the class of the modelled plain instances. -/
inductive TypeForm where
  | any : TypeForm
  | never : TypeForm
  | noneT : TypeForm
  | boolT : TypeForm
  | intT : TypeForm
  | floatT : TypeForm
  | strT : TypeForm
  | objT : TypeForm
  | lit (vs : List Value) : TypeForm
  | litForm : TypeForm
  | union (args : List TypeForm) : TypeForm
  | unionForm : TypeForm
  | listT (arg : Option TypeForm) : TypeForm
  | dictT (args : Option (TypeForm × TypeForm)) : TypeForm
  | tupT (args : Option (List TypeForm)) : TypeForm
  | callable (params : Option (List TypeForm)) (ret : TypeForm) : TypeForm
  | callableForm : TypeForm
  | ellipsisMark : TypeForm
  | unitMark : TypeForm

/-- Python exceptions that the modelled code can raise. -/
inductive PyErr where
  | typeError (msg : String) (cause : Option PyErr) : PyErr
  | valueError (msg : String) : PyErr
  | assertionError : PyErr
  | attributeError (msg : String) : PyErr

/-! ## Equality

Python `==` (`pyEqF`, with the `bool`/`int`/`float` numeric cross-type
equalities) and structural equality of type expressions (`tfEqF`, the
model of `==` between two type expressions, e.g. `left == right` in
`is_subtype` and the converter-registry key lookup).  Both are fueled:
`none` means the recursion budget ran out; constructor mismatches need no
fuel.  Python compares `Literal`/`Union` argument lists as sets and dicts
order-insensitively; the model compares them in order — no modelled
behaviour distinguishes the two. -/

mutual

def pyEqF : Nat → Value → Value → Option Bool
  | 0, _, _ => Option.none
  | f + 1, a, b =>
    match a, b with
    | Value.none, Value.none => some true
    | .bool x, .bool y => some (x == y)
    | .bool x, .int n => some ((if x then (1 : Int) else 0) == n)
    | .bool x, .float q => some ((if x then (1 : Rat) else 0) == q)
    | .int n, .bool y => some (n == (if y then (1 : Int) else 0))
    | .int n, .int m => some (n == m)
    | .int n, .float q => some ((n : Rat) == q)
    | .float q, .bool y => some (q == (if y then (1 : Rat) else 0))
    | .float q, .int n => some (q == (n : Rat))
    | .float q, .float p => some (q == p)
    | .str x, .str y => some (x == y)
    | .list xs, .list ys => pyEqListF f xs ys
    | .tuple xs, .tuple ys => pyEqListF f xs ys
    | .dict xs, .dict ys => pyEqPairsF f xs ys
    | .obj xs, .obj ys => pyEqAttrsF f xs ys
    | _, _ => some false

def pyEqListF : Nat → List Value → List Value → Option Bool
  | 0, _, _ => Option.none
  | f + 1, a, b =>
    match a, b with
    | [], [] => some true
    | x :: xs, y :: ys =>
      match pyEqF f x y with
      | Option.none => Option.none
      | some false => some false
      | some true => pyEqListF f xs ys
    | _, _ => some false

def pyEqPairsF : Nat → List (Value × Value) → List (Value × Value) → Option Bool
  | 0, _, _ => Option.none
  | f + 1, a, b =>
    match a, b with
    | [], [] => some true
    | (k1, v1) :: xs, (k2, v2) :: ys =>
      match pyEqF f k1 k2 with
      | Option.none => Option.none
      | some false => some false
      | some true =>
        match pyEqF f v1 v2 with
        | Option.none => Option.none
        | some false => some false
        | some true => pyEqPairsF f xs ys
    | _, _ => some false

def pyEqAttrsF : Nat → List (String × Value) → List (String × Value) → Option Bool
  | 0, _, _ => Option.none
  | f + 1, a, b =>
    match a, b with
    | [], [] => some true
    | (n1, v1) :: xs, (n2, v2) :: ys =>
      if n1 == n2 then
        match pyEqF f v1 v2 with
        | Option.none => Option.none
        | some false => some false
        | some true => pyEqAttrsF f xs ys
      else some false
    | _, _ => some false

def valEqF : Nat → Value → Value → Option Bool
  | 0, _, _ => Option.none
  | f + 1, a, b =>
    match a, b with
    | Value.none, Value.none => some true
    | .bool x, .bool y => some (x == y)
    | .int n, .int m => some (n == m)
    | .float q, .float p => some (q == p)
    | .str x, .str y => some (x == y)
    | .list xs, .list ys => valEqListF f xs ys
    | .tuple xs, .tuple ys => valEqListF f xs ys
    | .dict xs, .dict ys => valEqPairsF f xs ys
    | .obj xs, .obj ys => valEqAttrsF f xs ys
    | _, _ => some false

def valEqListF : Nat → List Value → List Value → Option Bool
  | 0, _, _ => Option.none
  | f + 1, a, b =>
    match a, b with
    | [], [] => some true
    | x :: xs, y :: ys =>
      match valEqF f x y with
      | Option.none => Option.none
      | some false => some false
      | some true => valEqListF f xs ys
    | _, _ => some false

def valEqPairsF : Nat → List (Value × Value) → List (Value × Value) → Option Bool
  | 0, _, _ => Option.none
  | f + 1, a, b =>
    match a, b with
    | [], [] => some true
    | (k1, v1) :: xs, (k2, v2) :: ys =>
      match valEqF f k1 k2 with
      | Option.none => Option.none
      | some false => some false
      | some true =>
        match valEqF f v1 v2 with
        | Option.none => Option.none
        | some false => some false
        | some true => valEqPairsF f xs ys
    | _, _ => some false

def valEqAttrsF : Nat → List (String × Value) → List (String × Value) → Option Bool
  | 0, _, _ => Option.none
  | f + 1, a, b =>
    match a, b with
    | [], [] => some true
    | (n1, v1) :: xs, (n2, v2) :: ys =>
      if n1 == n2 then
        match valEqF f v1 v2 with
        | Option.none => Option.none
        | some false => some false
        | some true => valEqAttrsF f xs ys
      else some false
    | _, _ => some false

def tfEqF : Nat → TypeForm → TypeForm → Option Bool
  | 0, _, _ => Option.none
  | f + 1, a, b =>
    match a, b with
    | .any, .any => some true
    | .never, .never => some true
    | .noneT, .noneT => some true
    | .boolT, .boolT => some true
    | .intT, .intT => some true
    | .floatT, .floatT => some true
    | .strT, .strT => some true
    | .objT, .objT => some true
    | .litForm, .litForm => some true
    | .unionForm, .unionForm => some true
    | .callableForm, .callableForm => some true
    | .ellipsisMark, .ellipsisMark => some true
    | .unitMark, .unitMark => some true
    | .lit vs, .lit ws => valEqListF f vs ws
    | .union xs, .union ys => tfListEqF f xs ys
    | .listT x, .listT y =>
      (match x, y with
       | Option.none, Option.none => some true
       | some t, some u => tfEqF f t u
       | _, _ => some false)
    | .dictT x, .dictT y =>
      (match x, y with
       | Option.none, Option.none => some true
       | some (k1, v1), some (k2, v2) =>
         (match tfEqF f k1 k2 with
          | Option.none => Option.none
          | some false => some false
          | some true => tfEqF f v1 v2)
       | _, _ => some false)
    | .tupT x, .tupT y =>
      (match x, y with
       | Option.none, Option.none => some true
       | some ts, some us => tfListEqF f ts us
       | _, _ => some false)
    | .callable p1 r1, .callable p2 r2 =>
      (match
        (match p1, p2 with
         | Option.none, Option.none => some true
         | some ts, some us => tfListEqF f ts us
         | _, _ => some false) with
       | Option.none => Option.none
       | some false => some false
       | some true => tfEqF f r1 r2)
    | _, _ => some false

def tfListEqF : Nat → List TypeForm → List TypeForm → Option Bool
  | 0, _, _ => Option.none
  | f + 1, a, b =>
    match a, b with
    | [], [] => some true
    | x :: xs, y :: ys =>
      match tfEqF f x y with
      | Option.none => Option.none
      | some false => some false
      | some true => tfListEqF f xs ys
    | _, _ => some false

end

/-- Python `x in xs` for a type expression against a list of type
expressions (membership by `==`). -/
def tfMemF : Nat → TypeForm → List TypeForm → Option Bool
  | 0, _, _ => Option.none
  | f + 1, a, xs =>
    match xs with
    | [] => some false
    | x :: rest =>
      match tfEqF f a x with
      | Option.none => Option.none
      | some true => some true
      | some false => tfMemF f a rest

/-- Python `value in args` for a value against the declared values of a
`Literal` (membership by `==`). -/
def pyMemF : Nat → Value → List Value → Option Bool
  | 0, _, _ => Option.none
  | f + 1, v, xs =>
    match xs with
    | [] => some false
    | x :: rest =>
      match pyEqF f v x with
      | Option.none => Option.none
      | some true => some true
      | some false => pyMemF f v rest


/-! ## Type introspection (`typing.get_origin`, `get_args`, `type_info`) -/

/-- `typing.get_origin`: the unparameterized base of a parameterized
generic or special form, `none` for a bare class, a special-form sentinel,
an instance marker or `Any`/`Never`.  (`__orig_class__` never exists in
the modelled universe.) -/
def getOrigin : TypeForm → Option TypeForm
  | .lit _ => some .litForm
  | .union _ => some .unionForm
  | .listT (some _) => some (.listT Option.none)
  | .dictT (some _) => some (.dictT Option.none)
  | .tupT (some _) => some (.tupT Option.none)
  | .callable _ _ => some .callableForm
  | _ => Option.none

/-- The `origin` field of `type_info` on a type expression: the
`get_origin` when there is one; otherwise the expression itself (the
source's class and special-form branches; no modelled class has
`__orig_bases__`).  For the two marker objects the source would take the
instance branch and return their runtime class; they are not type
expressions and no modelled behaviour reaches that case, so the marker
itself is returned. -/
def typeInfoOrigin (k : TypeForm) : TypeForm := (getOrigin k).getD k

/-- `typing.get_args` restricted to type arguments.  `Literal` arguments
are values, read by `litVals` instead.  For `Callable[[p...], r]` Python
returns `([p...], r)`; the parameter-list object can equal no modelled
type expression, so only the return type is kept. -/
def tArgs : TypeForm → List TypeForm
  | .union args => args
  | .listT (some a) => [a]
  | .dictT (some (k, v)) => [k, v]
  | .tupT (some args) => args
  | .callable _ ret => [ret]
  | _ => []

/-- The declared values of a `Literal[...]`; empty for anything else
(including the bare `Literal` sentinel, whose `get_args` is `()`). -/
def litVals : TypeForm → List Value
  | .lit vs => vs
  | _ => []

/-- Python `type(value)`: the runtime class of a value.  Modelled plain
instances all share the one class `objT`. -/
def pyTypeOf : Value → TypeForm
  | Value.none => .noneT
  | .bool _ => .boolT
  | .int _ => .intT
  | .float _ => .floatT
  | .str _ => .strT
  | .list _ => .listT Option.none
  | .tuple _ => .tupT Option.none
  | .dict _ => .dictT Option.none
  | .obj _ => .objT

/-- Python `isinstance(value, k)` for the bare classes of the modelled
universe.  `isinstance(True, int)` is true (`bool` subclasses `int`).
For a parameterized generic Python raises; `is_type` never reaches its
final `isinstance` with one (containers return earlier), so the model
returns false there. -/
def pyIsInstance (v : Value) (k : TypeForm) : Bool :=
  match k with
  | .boolT => (match v with | .bool _ => true | _ => false)
  | .intT => (match v with | .bool _ => true | .int _ => true | _ => false)
  | .floatT => (match v with | .float _ => true | _ => false)
  | .strT => (match v with | .str _ => true | _ => false)
  | .noneT => (match v with | Value.none => true | _ => false)
  | .listT Option.none => (match v with | .list _ => true | _ => false)
  | .dictT Option.none => (match v with | .dict _ => true | _ => false)
  | .tupT Option.none => (match v with | .tuple _ => true | _ => false)
  | .objT => (match v with | .obj _ => true | _ => false)
  | .callableForm => false
  | _ => false

/-- `isinstance(value, Sized) and isinstance(value, Iterable)`. -/
def sizedIterable : Value → Bool
  | .str _ => true
  | .list _ => true
  | .tuple _ => true
  | .dict _ => true
  | _ => false

/-- Python truthiness (`bool(value)` / `not value` negated). -/
def pyTruthy : Value → Bool
  | Value.none => false
  | .bool b => b
  | .int n => !(n == 0)
  | .float q => !(q == 0)
  | .str s => !(s == "")
  | .list xs => !xs.isEmpty
  | .tuple xs => !xs.isEmpty
  | .dict xs => !xs.isEmpty
  | .obj _ => true

/-- Python `len(value)`: `none` when the value has no length
(`TypeError: object has no len()`). -/
def pyLen : Value → Option Nat
  | .str s => some s.length
  | .list xs => some xs.length
  | .tuple xs => some xs.length
  | .dict xs => some xs.length
  | _ => Option.none

/-- Python iteration over a value: characters of a string (each a
one-character string), elements of a list or tuple, keys of a dict;
`none` for a non-iterable. -/
def pyIterate : Value → Option (List Value)
  | .str s => some (s.toList.map (fun c => Value.str (String.mk [c])))
  | .list xs => some xs
  | .tuple xs => some xs
  | .dict xs => some (xs.map (fun p => p.1))
  | _ => Option.none

/-- `isinstance(x, type)` over the modelled type expressions: the bare
classes are types; special forms, parameterized aliases and the marker
objects are not. -/
def isClassForm : TypeForm → Bool
  | .boolT => true
  | .intT => true
  | .floatT => true
  | .strT => true
  | .noneT => true
  | .objT => true
  | .listT Option.none => true
  | .dictT Option.none => true
  | .tupT Option.none => true
  | .callableForm => true
  | _ => false

/-- `issubclass` between modelled bare classes: reflexivity plus
`bool <= int` (the one proper builtin subclass relation in the modelled
universe). -/
def pySubclass (l r : TypeForm) : Bool :=
  match l, r with
  | .boolT, .intT => true
  | .boolT, .boolT => true
  | .intT, .intT => true
  | .floatT, .floatT => true
  | .strT, .strT => true
  | .noneT, .noneT => true
  | .objT, .objT => true
  | .listT Option.none, .listT Option.none => true
  | .dictT Option.none, .dictT Option.none => true
  | .tupT Option.none, .tupT Option.none => true
  | .callableForm, .callableForm => true
  | _, _ => false

/-- Membership in `NUMERIC_TOWER` (restricted to the modelled classes;
`complex` is outside the universe). -/
def isTower : TypeForm → Bool
  | .boolT => true
  | .intT => true
  | .floatT => true
  | _ => false

/-- `NUMERIC_TOWER.index`:  `bool < int < float`. -/
def towerIdx : TypeForm → Nat
  | .boolT => 0
  | .intT => 1
  | .floatT => 2
  | _ => 3

/-- Identity comparison of two `type_info` origins (`o1 == o2` in
`is_subtype`): origins are the shallow sentinel forms produced by
`getOrigin`, so a constructor comparison decides it. -/
def originEqB : Option TypeForm → Option TypeForm → Bool
  | some .litForm, some .litForm => true
  | some .unionForm, some .unionForm => true
  | some .callableForm, some .callableForm => true
  | some (.listT Option.none), some (.listT Option.none) => true
  | some (.dictT Option.none), some (.dictT Option.none) => true
  | some (.tupT Option.none), some (.tupT Option.none) => true
  | _, _ => false

/-! ## Rendering (`repr`, `str`, f-strings in error messages)

Only error-message text depends on these; they are depth-limited (nesting
beyond the budget prints an ellipsis), which no claim observes. -/

/-- A digit-by-digit decimal rendering of a rational, as `p/q` when the
denominator is not 1 (Python float repr is not reproduced exactly). -/
def ratRepr (q : Rat) : String :=
  if q.den == 1 then toString q.num else toString q.num ++ "/" ++ toString q.den

/-- `repr(value)` to a bounded depth. -/
def reprD : Nat → Value → String
  | _, Value.none => "None"
  | _, .bool b => if b then "True" else "False"
  | _, .int n => toString n
  | _, .float q => ratRepr q
  | _, .str s => "'" ++ s ++ "'"
  | 0, _ => "..."
  | d + 1, .list xs => "[" ++ ", ".intercalate (xs.map (reprD d)) ++ "]"
  | d + 1, .tuple xs =>
    (match xs with
     | [x] => "(" ++ reprD d x ++ ",)"
     | _ => "(" ++ ", ".intercalate (xs.map (reprD d)) ++ ")")
  | d + 1, .dict xs =>
    "\x7b" ++ ", ".intercalate (xs.map (fun p => reprD d p.1 ++ ": " ++ reprD d p.2)) ++ "\x7d"
  | _, .obj _ => "<object>"

/-- `repr(value)` with the model's rendering depth. -/
def reprV (v : Value) : String := reprD 6 v

/-- `str(value)`: like `repr` except a string renders unquoted. -/
def pyStr : Value → String
  | .str s => s
  | v => reprV v

/-- The display of a type expression in an f-string, to a bounded depth. -/
def showTD : Nat → TypeForm → String
  | _, .any => "typing.Any"
  | _, .never => "typing.Never"
  | _, .noneT => "<class 'NoneType'>"
  | _, .boolT => "<class 'bool'>"
  | _, .intT => "<class 'int'>"
  | _, .floatT => "<class 'float'>"
  | _, .strT => "<class 'str'>"
  | _, .objT => "<class 'object'>"
  | _, .litForm => "typing.Literal"
  | _, .unionForm => "typing.Union"
  | _, .listT Option.none => "<class 'list'>"
  | _, .dictT Option.none => "<class 'dict'>"
  | _, .tupT Option.none => "<class 'tuple'>"
  | _, .callableForm => "collections.abc.Callable"
  | _, .ellipsisMark => "Ellipsis"
  | _, .unitMark => "()"
  | 0, _ => "..."
  | d + 1, .lit vs => "typing.Literal[" ++ ", ".intercalate (vs.map (reprD d)) ++ "]"
  | d + 1, .union args => "typing.Union[" ++ ", ".intercalate (args.map (showTD d)) ++ "]"
  | d + 1, .listT (some a) => "list[" ++ showTD d a ++ "]"
  | d + 1, .dictT (some (k, v)) => "dict[" ++ showTD d k ++ ", " ++ showTD d v ++ "]"
  | _, .tupT (some []) => "tuple[()]"
  | d + 1, .tupT (some args) => "tuple[" ++ ", ".intercalate (args.map (showTD d)) ++ "]"
  | d + 1, .callable ps ret =>
    "collections.abc.Callable[" ++
      (match ps with
       | Option.none => "..."
       | some ts => "[" ++ ", ".intercalate (ts.map (showTD d)) ++ "]") ++
      ", " ++ showTD d ret ++ "]"

/-- The display of a type expression. -/
def showT (k : TypeForm) : String := showTD 6 k

/-- The message of the uniform conversion failure raised by `to_type`:
`f"Cannot cast \x7bvalue!r\x7d to \x7bkind\x7d"`. -/
def castMsg (v : Value) (k : TypeForm) : String :=
  "Cannot cast " ++ reprV v ++ " to " ++ showT k

/-! ## `is_subtype` -/

/-- Identity test against the `Any` sentinel (`left is Any`). -/
def isAnyB : TypeForm → Bool
  | .any => true
  | _ => false

/-- Membership test in `(Never, NoReturn)` (one sentinel in the model). -/
def isNeverB : TypeForm → Bool
  | .never => true
  | _ => false

/-- Membership test in `(None, NoneType)` (one form in the model). -/
def isNoneB : TypeForm → Bool
  | .noneT => true
  | _ => false

/-- Identity test against the `Ellipsis` object. -/
def isEllipsisB : TypeForm → Bool
  | .ellipsisMark => true
  | _ => false

/-- `set(a1).issubset(a2)` over `Literal` value lists: every left value is
`==` to some right value. -/
def litSubF : Nat → List Value → List Value → Option Bool
  | 0, _, _ => Option.none
  | f + 1, vs, ws =>
    match vs with
    | [] => some true
    | v :: rest =>
      match pyMemF f v ws with
      | Option.none => Option.none
      | some false => some false
      | some true => litSubF f rest ws

mutual

/-- `is_subtype(left, right, *, covariant, contravariant, implicit)`:
the structural subtype relation of the source, translated branch for
branch.  After the bivariant/contravariant reductions the contravariant
flag is false, so `kwargs` is `(cov, contravariant := false, imp)`.  The
`Sequence`/`Mapping` abstract containers and user generics with
`__orig_bases__` are outside the modelled universe, so those branches of
the same-origin case do not appear. -/
def isSubtypeF : Nat → TypeForm → TypeForm → Bool → Bool → Bool → Option Bool
  | 0, _, _, _, _, _ => Option.none
  | f + 1, l, r, cov, con, imp =>
    if cov && con then
      match isSubtypeF f l r true false imp with
      | Option.none => Option.none
      | some true => some true
      | some false => isSubtypeF f l r false true imp
    else if con then
      isSubtypeF f r l true false imp
    else
      if isAnyB r then some true
      else if isAnyB l then some (isAnyB r)
      else if isNeverB r then some false
      else if isNeverB l then some true
      else if isNoneB r then some (isNoneB l)
      else
        match tfEqF f l r with
        | Option.none => Option.none
        | some true => some true
        | some false =>
          if imp && isTower l && isTower r then
            some (decide (towerIdx l ≤ towerIdx r))
          else
            let o1 := getOrigin l
            let o2 := getOrigin r
            if originEqB o2 (some .litForm) then
              (if originEqB o1 (some .litForm) then litSubF f (litVals l) (litVals r)
               else some false)
            else if originEqB o1 (some .litForm) then
              (match tfMemF f l (tArgs r) with
               | Option.none => Option.none
               | some true => some true
               | some false => subAllValsF f (litVals l) r cov imp)
            else if originEqB o1 (some .unionForm) then
              subAllF f (tArgs l) r cov imp
            else if originEqB o2 (some .unionForm) then
              subAnyF f l (tArgs r) cov imp
            else if o1.isSome && originEqB o1 o2 then
              match l, r with
              | .callable p1 r1, .callable p2 r2 =>
                (match isSubtypeF f r1 r2 true false true with
                 | Option.none => Option.none
                 | some false => some false
                 | some true =>
                   match p1 with
                   | Option.none => some true
                   | some ps1 =>
                     match p2 with
                     | Option.none => some false
                     | some ps2 =>
                       if ps1.length != ps2.length then some false
                       else subZipConF f ps1 ps2 imp)
              | l2, r2 =>
                let a1 := tArgs l2
                let a2 := tArgs r2
                let a1 :=
                  if originEqB o1 (some (.tupT Option.none)) && a1.isEmpty then
                    ([] : List TypeForm)
                  else a1
                let a2 :=
                  if originEqB o2 (some (.tupT Option.none)) && a2.length == 2
                      && isEllipsisB (a2.getD 1 .any) then
                    List.replicate a1.length (a2.headD .any)
                  else a2
                if a1.length != a2.length then some false
                else subZipF f a1 a2 cov imp
            else if cov && isClassForm l && isClassForm r then
              some (pySubclass l r)
            else some false

/-- `all(is_subtype(type(arg), right, **kwargs) for arg in a1)` of the
left-`Literal` branch. -/
def subAllValsF : Nat → List Value → TypeForm → Bool → Bool → Option Bool
  | 0, _, _, _, _ => Option.none
  | f + 1, vs, r, cov, imp =>
    match vs with
    | [] => some true
    | v :: rest =>
      match isSubtypeF f (pyTypeOf v) r cov false imp with
      | Option.none => Option.none
      | some false => some false
      | some true => subAllValsF f rest r cov imp

/-- `all(is_subtype(arg, right, **kwargs) for arg in a1)` of the
left-union branch. -/
def subAllF : Nat → List TypeForm → TypeForm → Bool → Bool → Option Bool
  | 0, _, _, _, _ => Option.none
  | f + 1, args, r, cov, imp =>
    match args with
    | [] => some true
    | a :: rest =>
      match isSubtypeF f a r cov false imp with
      | Option.none => Option.none
      | some false => some false
      | some true => subAllF f rest r cov imp

/-- `any(is_subtype(left, arg, **kwargs) for arg in a2)` of the
right-union branch. -/
def subAnyF : Nat → TypeForm → List TypeForm → Bool → Bool → Option Bool
  | 0, _, _, _, _ => Option.none
  | f + 1, l, args, cov, imp =>
    match args with
    | [] => some false
    | a :: rest =>
      match isSubtypeF f l a cov false imp with
      | Option.none => Option.none
      | some true => some true
      | some false => subAnyF f l rest cov imp

/-- `all(is_subtype(x, y, **kwargs) for x, y in zip(a1, a2))` of the
same-origin container branch. -/
def subZipF : Nat → List TypeForm → List TypeForm → Bool → Bool → Option Bool
  | 0, _, _, _, _ => Option.none
  | f + 1, xs, ys, cov, imp =>
    match xs, ys with
    | x :: xs2, y :: ys2 =>
      (match isSubtypeF f x y cov false imp with
       | Option.none => Option.none
       | some false => some false
       | some true => subZipF f xs2 ys2 cov imp)
    | _, _ => some true

/-- `all(is_subtype(x, y, contravariant=True, implicit=implicit) ...)` of
the callable parameter comparison. -/
def subZipConF : Nat → List TypeForm → List TypeForm → Bool → Option Bool
  | 0, _, _, _ => Option.none
  | f + 1, xs, ys, imp =>
    match xs, ys with
    | x :: xs2, y :: ys2 =>
      (match isSubtypeF f x y false true imp with
       | Option.none => Option.none
       | some false => some false
       | some true => subZipConF f xs2 ys2 imp)
    | _, _ => some true

end

/-! ## `is_type` -/

mutual

/-- `is_type(value, kind)`: does `value` conform to the type expression
`kind`?  The callable branch requires `callable(value)`, which is false
for every modelled value, so the signature comparison of callables is
never reached.  The final `isinstance(value, kind)` is only reached with
a bare `kind` (containers return inside the sized branch); `set` is
outside the universe, so `origin in (list, set, dict)` and
`origin in (list, set)` test for `list`/`dict` and `list`. -/
def isTypeF : Nat → Value → TypeForm → Option Bool
  | 0, _, _ => Option.none
  | f + 1, v, k =>
    if isAnyB k then some true
    else if isNeverB k then some false
    else if isNoneB k then some (match v with | Value.none => true | _ => false)
    else
      let origin := typeInfoOrigin k
      if originEqB (some origin) (some .litForm) then pyMemF f v (litVals k)
      else if originEqB (some origin) (some .unionForm) then isTypeAnyF f v (tArgs k)
      else if originEqB (some origin) (some .callableForm) then some false
      else if !(pyIsInstance v origin) then some false
      else if sizedIterable v then
        if (originEqB (some origin) (some (.listT Option.none))
            || originEqB (some origin) (some (.dictT Option.none)))
            && (pyLen v).getD 0 == 0 then some true
        else if originEqB (some origin) (some (.listT Option.none)) then
          (match v with
           | .list xs => isTypeAllF f xs ((tArgs k).headD .any)
           | _ => some (pyIsInstance v k))
        else if originEqB (some origin) (some (.dictT Option.none)) then
          (match v with
           | .dict ps =>
             (match tArgs k with
              | [kt, vt] => isTypePairsF f ps kt vt
              | _ => isTypePairsF f ps .any .any)
           | _ => some (pyIsInstance v k))
        else if originEqB (some origin) (some (.tupT Option.none)) then
          (match v with
           | .tuple xs =>
             let args := tArgs k
             if args.isEmpty || (match args with | [.unitMark] => true | _ => false) then
               some xs.isEmpty
             else
               let args :=
                 if args.length > 1 && isEllipsisB (args.getD 1 .any) then
                   List.replicate xs.length (args.headD .any)
                 else args
               if xs.length != args.length then some false
               else isTypeZipF f xs args
           | _ => some (pyIsInstance v k))
        else some (pyIsInstance v k)
      else some (pyIsInstance v k)

/-- `any(is_type(value, vt) for vt in args)` of the union branch. -/
def isTypeAnyF : Nat → Value → List TypeForm → Option Bool
  | 0, _, _ => Option.none
  | f + 1, v, args =>
    match args with
    | [] => some false
    | a :: rest =>
      match isTypeF f v a with
      | Option.none => Option.none
      | some true => some true
      | some false => isTypeAnyF f v rest

/-- `all(is_type(x, vt) for x in value)` of the list branch. -/
def isTypeAllF : Nat → List Value → TypeForm → Option Bool
  | 0, _, _ => Option.none
  | f + 1, xs, vt =>
    match xs with
    | [] => some true
    | x :: rest =>
      match isTypeF f x vt with
      | Option.none => Option.none
      | some false => some false
      | some true => isTypeAllF f rest vt

/-- `all(is_type(k, kt) and is_type(v, vt) for k, v in value.items())` of
the dict branch. -/
def isTypePairsF : Nat → List (Value × Value) → TypeForm → TypeForm → Option Bool
  | 0, _, _, _ => Option.none
  | f + 1, ps, kt, vt =>
    match ps with
    | [] => some true
    | (x, y) :: rest =>
      match isTypeF f x kt with
      | Option.none => Option.none
      | some false => some false
      | some true =>
        match isTypeF f y vt with
        | Option.none => Option.none
        | some false => some false
        | some true => isTypePairsF f rest kt vt

/-- `len(value) == len(args) and all(is_type(v, vt) for v, vt in
zip(value, args))` of the tuple branch (the zip part). -/
def isTypeZipF : Nat → List Value → List TypeForm → Option Bool
  | 0, _, _ => Option.none
  | f + 1, xs, args =>
    match xs, args with
    | x :: xs2, a :: args2 =>
      (match isTypeF f x a with
       | Option.none => Option.none
       | some false => some false
       | some true => isTypeZipF f xs2 args2)
    | _, _ => some true

end

/-! ## The conversion registry (`Casts`, `TYPE_CASTS`, `_get_casters`)

Converter functions are defunctionalized: `CastFn` names each registered
builtin converter of the source (`bytes`/`set`/`datetime` converters are
outside the modelled universe) plus two custom converters usable in
override registries — a constant short-form converter and an always-raising
one.  The short/long calling-convention detection of `_wrap` is resolved
per tag in `applyCastF`: the short-form converters receive the value only,
the long-form ones also the destination and the registry. -/

/-- A registered converter function. -/
inductive CastFn where
  | toAny : CastFn
  | toNever : CastFn
  | toNone : CastFn
  | toLiteral : CastFn
  | toUnion : CastFn
  | strToInt : CastFn
  | toStr : CastFn
  | toList : CastFn
  | toDict : CastFn
  | toTuple : CastFn
  | retConst (u : Value) : CastFn
  | raiseValueError : CastFn

/-- The conversion registry: `(source type, destination type)` keys to
converter functions, insertion-ordered with unique keys (a Python dict). -/
def Casts : Type := List ((TypeForm × TypeForm) × CastFn)

/-- `casts.get((left, right))`: dict lookup by key equality. -/
def lkCastsF : Nat → Casts → TypeForm × TypeForm → Option (Option CastFn)
  | 0, _, _ => Option.none
  | f + 1, cs, key =>
    match cs with
    | [] => some Option.none
    | ((a, b), fn) :: rest =>
      match tfEqF f key.1 a with
      | Option.none => Option.none
      | some false => lkCastsF f rest key
      | some true =>
        match tfEqF f key.2 b with
        | Option.none => Option.none
        | some false => lkCastsF f rest key
        | some true => some (some fn)

/-- `TYPE_CASTS` as left after module load, in registration order.  The
zero-argument `@casts` decorations register under the origins of the
declared parameter and return types; `@casts(to=...)` under source `Any`.
`Never`/`NoReturn` and `Union`/`UnionType` each collapse to one key in
the model.  The `bytes`, `set` and `datetime` entries are outside the
modelled universe. -/
def TYPE_CASTS : Casts :=
  [ ((.any, .any), CastFn.toAny),
    ((.any, .never), CastFn.toNever),
    ((.any, .noneT), CastFn.toNone),
    ((.any, .litForm), CastFn.toLiteral),
    ((.any, .unionForm), CastFn.toUnion),
    ((.strT, .intT), CastFn.strToInt),
    ((.any, .strT), CastFn.toStr),
    ((.any, .listT Option.none), CastFn.toList),
    ((.any, .dictT Option.none), CastFn.toDict),
    ((.any, .tupT Option.none), CastFn.toTuple) ]

/-- `casts = casts or TYPE_CASTS`: `None` and the empty dict are falsy,
so both fall back to the global registry. -/
def resolveCasts : Option Casts → Casts
  | Option.none => TYPE_CASTS
  | some cs => if cs.isEmpty then TYPE_CASTS else cs

/-- `_get_casters(src, dest, casts)`: try the four keys
`(src, dest)`, `(src, dest_origin)`, `(Any, dest)`, `(Any, dest_origin)`
in order against the resolved registry; first hit wins.  (`_wrap` is
resolved inside `applyCastF`.)  The outer `none` is exhausted fuel; the
inner option is the function's own result. -/
def getCastersF (f : Nat) (src dest : TypeForm) (oc : Option Casts) :
    Option (Option CastFn) :=
  let cs := resolveCasts oc
  let destOrigin := typeInfoOrigin dest
  match lkCastsF f cs (src, dest) with
  | Option.none => Option.none
  | some (some fn) => some (some fn)
  | some Option.none =>
    match lkCastsF f cs (src, destOrigin) with
    | Option.none => Option.none
    | some (some fn) => some (some fn)
    | some Option.none =>
      match lkCastsF f cs (.any, dest) with
      | Option.none => Option.none
      | some (some fn) => some (some fn)
      | some Option.none => lkCastsF f cs (.any, destOrigin)

/-! ## Builtin constructors and number parsing -/

/-- Parse the digits of a decimal string. -/
def digitsToNat : List Char → Option Nat
  | [] => Option.none
  | cs =>
    if cs.all Char.isDigit then
      some (cs.foldl (fun acc c => acc * 10 + (c.toNat - 48)) 0)
    else Option.none

/-- Python `int(s)` on a string: an optional sign and digits (number
grammar niceties such as underscores and surrounding whitespace are not
modelled). -/
def parseInt (s : String) : Option Int :=
  match s.toList with
  | '-' :: rest => (digitsToNat rest).map (fun n => -(n : Int))
  | '+' :: rest => (digitsToNat rest).map (fun n => (n : Int))
  | cs => (digitsToNat cs).map (fun n => (n : Int))

/-- Python `float(s)` on a string: an optional sign, digits, optionally a
point and fractional digits (exponents, `inf`/`nan` and underscores are
not modelled). -/
def parseFloat (s : String) : Option Rat :=
  let core : List Char → Option Rat := fun cs =>
    match cs.splitOn '.' with
    | [whole] => (digitsToNat whole).map (fun n => (n : Rat))
    | [whole, frac] =>
      match digitsToNat whole, digitsToNat frac with
      | some w, some fr => some ((w : Rat) + (fr : Rat) / ((10 : Rat) ^ frac.length))
      | _, _ => Option.none
    | _ => Option.none
  match s.toList with
  | '-' :: rest => (core rest).map (fun q => -q)
  | '+' :: rest => core rest
  | cs => core cs

/-- Python `int()` truncation toward zero of a float. -/
def truncRat (q : Rat) : Int := if 0 ≤ q then q.floor else -((-q).floor)

/-- Python `int(value)`: identity on ints, `True`/`False` to `1`/`0`,
truncation of floats, parse of strings (`ValueError` on a bad literal),
`TypeError` otherwise. -/
def pyInt : Value → Except PyErr Int
  | .bool b => Except.ok (if b then 1 else 0)
  | .int n => Except.ok n
  | .float q => Except.ok (truncRat q)
  | .str s =>
    (match parseInt s with
     | some n => Except.ok n
     | Option.none =>
       Except.error (PyErr.valueError
         ("invalid literal for int() with base 10: " ++ reprV (.str s))))
  | v => Except.error (PyErr.typeError
      ("int() argument must be a string, a bytes-like object or a real number, not "
        ++ showT (pyTypeOf v)) Option.none)

/-- Python `float(value)`. -/
def pyFloat : Value → Except PyErr Rat
  | .bool b => Except.ok (if b then 1 else 0)
  | .int n => Except.ok (n : Rat)
  | .float q => Except.ok q
  | .str s =>
    (match parseFloat s with
     | some q => Except.ok q
     | Option.none =>
       Except.error (PyErr.valueError
         ("could not convert string to float: " ++ reprV (.str s))))
  | v => Except.error (PyErr.typeError
      ("float() argument must be a string or a real number, not "
        ++ showT (pyTypeOf v)) Option.none)

/-- Calling a type expression with no argument, `kind()`: the builtin
classes construct their empty/zero value (`NoneType()` is `None`, and a
subscripted alias such as `tuple[()]()` calls its origin); a plain class
constructs a fresh empty instance; special forms cannot be instantiated. -/
def pyCall0 : TypeForm → Except PyErr Value
  | .boolT => Except.ok (.bool false)
  | .intT => Except.ok (.int 0)
  | .floatT => Except.ok (.float 0)
  | .strT => Except.ok (.str "")
  | .noneT => Except.ok Value.none
  | .objT => Except.ok (.obj [])
  | .listT _ => Except.ok (.list [])
  | .dictT _ => Except.ok (.dict [])
  | .tupT _ => Except.ok (.tuple [])
  | k => Except.error (PyErr.typeError ("cannot instantiate " ++ showT k) Option.none)

/-- Calling a type expression with one argument, `kind(value)`: the
builtin constructors (`bool` is truthiness, `int`/`float` parse or
convert, `str` renders, `list`/`tuple` consume an iterable, `dict` copies
a mapping — construction from a pair sequence is not modelled); a plain
class with an argument raises (its `object.__init__` takes none); special
forms cannot be instantiated. -/
def pyCall1 : TypeForm → Value → Except PyErr Value
  | .boolT, v => Except.ok (.bool (pyTruthy v))
  | .intT, v => (pyInt v).map Value.int
  | .floatT, v => (pyFloat v).map Value.float
  | .strT, v => Except.ok (.str (pyStr v))
  | .listT _, v =>
    (match pyIterate v with
     | some xs => Except.ok (.list xs)
     | Option.none =>
       Except.error (PyErr.typeError (showT (pyTypeOf v) ++ " object is not iterable")
         Option.none))
  | .tupT _, v =>
    (match pyIterate v with
     | some xs => Except.ok (.tuple xs)
     | Option.none =>
       Except.error (PyErr.typeError (showT (pyTypeOf v) ++ " object is not iterable")
         Option.none))
  | .dictT _, v =>
    (match v with
     | .dict ps => Except.ok (.dict ps)
     | _ => Except.error (PyErr.typeError (showT (pyTypeOf v) ++ " object is not a mapping")
         Option.none))
  | .objT, _ => Except.error (PyErr.typeError "object() takes no arguments" Option.none)
  | .noneT, _ => Except.error (PyErr.typeError "NoneType takes no arguments" Option.none)
  | k, _ => Except.error (PyErr.typeError ("cannot instantiate " ++ showT k) Option.none)


/-! ## `to_type` and the registered converters -/

/-- `_to_class(value, kind, casts)` restricted to the kinds that occur
inside type expressions (builtin classes and special forms; the member
loop over a plain class spec is `toClassC` below).  A builtin class has
no plain members — `type_hints` skips dunder names and methods — so its
dict branch is `setattrs(kind(), {}, {})`, i.e. `kind()`; for a non-class
kind `get_type_hints` raises `TypeError`; a non-dict value is passed to
the constructor, `kind(value)`. -/
def toClassBuiltinF (v : Value) (k : TypeForm) : Except PyErr Value :=
  match v with
  | .dict _ =>
    if isClassForm k then pyCall0 k
    else Except.error (PyErr.typeError
      (showT k ++ " is not a module, class, method, or function") Option.none)
  | _ => pyCall1 k v

mutual

/-- `to_type(value, kind, casts)`: the identity short-circuit through
`is_type`, then the converter selected by `_get_casters` for
`(type_info(value).origin, kind)` or the `_to_class` fallback, with any
exception from that call re-raised as
`TypeError(f"Cannot cast \x7bvalue!r\x7d to \x7bkind\x7d") from e`. -/
def toTypeF : Nat → Value → TypeForm → Option Casts → Option (Except PyErr Value)
  | 0, _, _, _ => Option.none
  | f + 1, v, k, oc =>
    match isTypeF f v k with
    | Option.none => Option.none
    | some true => some (Except.ok v)
    | some false =>
      let cs := resolveCasts oc
      match getCastersF f (pyTypeOf v) k (some cs) with
      | Option.none => Option.none
      | some mfn =>
        match
          (match mfn with
           | some fn => applyCastF f fn v k cs
           | Option.none => some (toClassBuiltinF v k)) with
        | Option.none => Option.none
        | some (Except.ok r) => some (Except.ok r)
        | some (Except.error e) =>
          some (Except.error (PyErr.typeError (castMsg v k) (some e)))

/-- Apply the selected converter, after `_wrap`: the short-form
converters receive the value, the long-form ones also the destination
and the (resolved) registry. -/
def applyCastF : Nat → CastFn → Value → TypeForm → Casts → Option (Except PyErr Value)
  | 0, _, _, _, _ => Option.none
  | f + 1, fn, v, dest, cs =>
    match fn with
    | .toAny => some (Except.ok v)
    | .toNever =>
      some (Except.error (PyErr.typeError
        ("Cannot cast " ++ reprV v ++ " to Never (nothing can)") Option.none))
    | .toNone => some (Except.ok Value.none)
    | .toLiteral =>
      (match isTypeF f v dest with
       | Option.none => Option.none
       | some true => some (Except.ok v)
       | some false =>
         some (Except.error (PyErr.typeError (castMsg v dest) Option.none)))
    | .toUnion => unionLoopF f v (tArgs dest) dest cs
    | .strToInt =>
      (match pyInt v with
       | Except.ok n => some (Except.ok (.int n))
       | Except.error (PyErr.valueError _) =>
         (match pyFloat v with
          | Except.ok q => some (Except.ok (.int (truncRat q)))
          | Except.error e2 => some (Except.error e2))
       | Except.error e => some (Except.error e))
    | .toStr => some (pyCall1 dest v)
    | .toList =>
      (match pyIterate v with
       | Option.none => some (Except.error PyErr.assertionError)
       | some xs =>
         match convElemsF f xs ((tArgs dest).headD .any) cs with
         | Option.none => Option.none
         | some (Except.error e) => some (Except.error e)
         | some (Except.ok rs) => some (Except.ok (.list rs)))
    | .toDict =>
      (match pyLen v with
       | Option.none => some (Except.error PyErr.assertionError)
       | some 0 => some (pyCall0 dest)
       | some _ =>
         match v with
         | .dict ps =>
           (match tArgs dest with
            | [] =>
              (match convPairsF f ps .any .any cs with
               | Option.none => Option.none
               | some (Except.error e) => some (Except.error e)
               | some (Except.ok rs) => some (Except.ok (.dict rs)))
            | [kt, vt] =>
              (match convPairsF f ps kt vt cs with
               | Option.none => Option.none
               | some (Except.error e) => some (Except.error e)
               | some (Except.ok rs) => some (Except.ok (.dict rs)))
            | _ => some (Except.error (PyErr.valueError "cannot unpack type arguments")))
         | _ => some (Except.error PyErr.assertionError))
    | .toTuple =>
      (match
        (if pyTruthy v then
          match pyLen v with
          | Option.none =>
            Except.error (PyErr.typeError
              ("object of type " ++ showT (pyTypeOf v) ++ " has no len()") Option.none)
          | some n => Except.ok (n == 0)
         else Except.ok true) with
       | Except.error e => some (Except.error e)
       | Except.ok c1 =>
         let args := tArgs dest
         if (c1 && args.isEmpty) || (match args with | [.unitMark] => true | _ => false) then
           some (pyCall0 dest)
         else
           match pyLen v with
           | Option.none =>
             some (Except.error (PyErr.typeError
               ("object of type " ++ showT (pyTypeOf v) ++ " has no len()") Option.none))
           | some n =>
             let args :=
               if args.length > 1 && isEllipsisB (args.getD 1 .any) then
                 List.replicate n (args.headD .any)
               else args
             if n != args.length then
               some (Except.error (PyErr.valueError
                 ("Different lengths when casting " ++ reprV v ++ " to " ++ showT dest)))
             else
               match pyIterate v with
               | Option.none =>
                 some (Except.error (PyErr.typeError
                   (showT (pyTypeOf v) ++ " object is not iterable") Option.none))
               | some xs =>
                 match convZipF f xs args cs with
                 | Option.none => Option.none
                 | some (Except.error e) => some (Except.error e)
                 | some (Except.ok rs) => some (Except.ok (.tuple rs)))
    | .retConst u => some (Except.ok u)
    | .raiseValueError =>
      some (Except.error (PyErr.valueError "raised by a custom converter"))

/-- `_to_union`: return the first member cast that works, swallowing
`AssertionError`/`TypeError`/`ValueError` from each attempt. -/
def unionLoopF : Nat → Value → List TypeForm → TypeForm → Casts → Option (Except PyErr Value)
  | 0, _, _, _, _ => Option.none
  | f + 1, v, args, dest, cs =>
    match args with
    | [] => some (Except.error (PyErr.typeError (castMsg v dest) Option.none))
    | a :: rest =>
      match toTypeF f v a (some cs) with
      | Option.none => Option.none
      | some (Except.ok r) => some (Except.ok r)
      | some (Except.error e) =>
        match e with
        | PyErr.assertionError => unionLoopF f v rest dest cs
        | PyErr.typeError _ _ => unionLoopF f v rest dest cs
        | PyErr.valueError _ => unionLoopF f v rest dest cs
        | _ => some (Except.error e)

/-- Elementwise `to_type(val, val_type, casts)` of `_to_list`. -/
def convElemsF : Nat → List Value → TypeForm → Casts → Option (Except PyErr (List Value))
  | 0, _, _, _ => Option.none
  | f + 1, xs, vt, cs =>
    match xs with
    | [] => some (Except.ok [])
    | x :: rest =>
      match toTypeF f x vt (some cs) with
      | Option.none => Option.none
      | some (Except.error e) => some (Except.error e)
      | some (Except.ok r) =>
        match convElemsF f rest vt cs with
        | Option.none => Option.none
        | some (Except.error e) => some (Except.error e)
        | some (Except.ok rs) => some (Except.ok (r :: rs))

/-- Pairwise `to_type(k, key_type), to_type(v, val_type)` of `_to_dict`. -/
def convPairsF : Nat → List (Value × Value) → TypeForm → TypeForm → Casts →
    Option (Except PyErr (List (Value × Value)))
  | 0, _, _, _, _ => Option.none
  | f + 1, ps, kt, vt, cs =>
    match ps with
    | [] => some (Except.ok [])
    | (x, y) :: rest =>
      match toTypeF f x kt (some cs) with
      | Option.none => Option.none
      | some (Except.error e) => some (Except.error e)
      | some (Except.ok xr) =>
        match toTypeF f y vt (some cs) with
        | Option.none => Option.none
        | some (Except.error e) => some (Except.error e)
        | some (Except.ok yr) =>
          match convPairsF f rest kt vt cs with
          | Option.none => Option.none
          | some (Except.error e) => some (Except.error e)
          | some (Except.ok rs) => some (Except.ok ((xr, yr) :: rs))

/-- `to_type(val, val_type, casts)` over `zip(value, args)` of
`_to_tuple`. -/
def convZipF : Nat → List Value → List TypeForm → Casts → Option (Except PyErr (List Value))
  | 0, _, _, _ => Option.none
  | f + 1, xs, args, cs =>
    match xs, args with
    | x :: xs2, a :: args2 =>
      (match toTypeF f x a (some cs) with
       | Option.none => Option.none
       | some (Except.error e) => some (Except.error e)
       | some (Except.ok r) =>
         match convZipF f xs2 args2 cs with
         | Option.none => Option.none
         | some (Except.error e) => some (Except.error e)
         | some (Except.ok rs) => some (Except.ok (r :: rs)))
    | _, _ => some (Except.ok [])

end


/-! ## Classes: `type_hints` and `_to_class`/`castfit`

A Python class is modelled as its `__mro__`: a list of layers, most
derived first, each carrying the class body dictionary (plain values or
functions) and its `__annotations__`.  `object`'s layer contributes
nothing (all its entries are dunder names or functions) and may be
omitted.  Properties and dataclasses are outside the modelled universe. -/

/-- A class-body dictionary entry: a plain default value, or a
function/method (skipped by `type_hints`). -/
inductive ClsAttr where
  | val (v : Value) : ClsAttr
  | func : ClsAttr

/-- One class of an MRO: its body dictionary entries (insertion order)
and its `__annotations__`. -/
structure Layer where
  attrs : List (String × ClsAttr)
  annots : List (String × TypeForm)

/-- A plain Python class: the layers of `cls.__mro__`, most derived
first. -/
structure ClassD where
  layers : List Layer

/-- An entry of the mapping `type_hints` returns: the source's
`TypeInfo` after `replace(info, name=name, default=value)`.  `origin` and
`args` are `type_info(hint).origin` and its type arguments (`args` is
only consulted for union hints, where `get_args` yields types). -/
structure MInfo where
  name : String
  hint : TypeForm
  origin : TypeForm
  args : List TypeForm
  default : Option Value

/-- Build the recorded entry for a member. -/
def mkMInfo (n : String) (h : TypeForm) (d : Option Value) : MInfo :=
  ⟨n, h, typeInfoOrigin h, tArgs h, d⟩

/-- `name.startswith("__")`. -/
def strStartsUS (n : String) : Bool :=
  match n.toList with
  | '_' :: '_' :: _ => true
  | _ => false

/-- First-match lookup in a string-keyed association list. -/
def lookupStr {α : Type} : List (String × α) → String → Option α
  | [], _ => Option.none
  | (m, x) :: rest, n => if m == n then some x else lookupStr rest n

/-- A `dict.update` step that keeps an existing key's position. -/
def upsertHint : List (String × TypeForm) → String → TypeForm → List (String × TypeForm)
  | [], n, h => [(n, h)]
  | (m, g) :: rest, n, h =>
    if m == n then (m, h) :: rest else (m, g) :: upsertHint rest n h

/-- `typing.get_type_hints(cls)`: the annotations of `reversed(__mro__)`
merged in order, so the most derived annotation wins (at the position of
the first occurrence). -/
def mergedHints (c : ClassD) : List (String × TypeForm) :=
  c.layers.reverse.foldl
    (fun acc layer => layer.annots.foldl (fun a p => upsertHint a p.1 p.2) acc) []

/-- `name in result` over the entries recorded so far. -/
def containsName (acc : List MInfo) (n : String) : Bool :=
  acc.any (fun m => m.name == n)

/-- `hints.get(name, Any if value is None else type(value))`. -/
def hintFor (hints : List (String × TypeForm)) (n : String) (v : Value) : TypeForm :=
  match lookupStr hints n with
  | some h => h
  | Option.none => (match v with | Value.none => .any | _ => pyTypeOf v)

/-- The inner loop of `type_hints` over one ancestor's `__dict__`: skip a
name already recorded, a dunder name, or a function; record a plain field
with its merged hint and its default. -/
def hintsAttrLoop (hints : List (String × TypeForm)) :
    List (String × ClsAttr) → List MInfo → List MInfo
  | [], acc => acc
  | (n, a) :: rest, acc =>
    if containsName acc n || strStartsUS n then hintsAttrLoop hints rest acc
    else
      match a with
      | ClsAttr.func => hintsAttrLoop hints rest acc
      | ClsAttr.val v =>
        hintsAttrLoop hints rest (acc ++ [mkMInfo n (hintFor hints n v) (some v)])

/-- `for parent in reversed(item.__mro__)` (the caller passes the layers
already reversed, most base first). -/
def hintsLayersLoop (hints : List (String × TypeForm)) :
    List Layer → List MInfo → List MInfo
  | [], acc => acc
  | layer :: rest, acc => hintsLayersLoop hints rest (hintsAttrLoop hints layer.attrs acc)

/-- The trailing loop of `type_hints`: the annotated-but-defaultless
members, in merged-annotation order, each with the no-default sentinel. -/
def hintsAnnotLoop : List (String × TypeForm) → List MInfo → List MInfo
  | [], acc => acc
  | (n, h) :: rest, acc =>
    if containsName acc n then hintsAnnotLoop rest acc
    else hintsAnnotLoop rest (acc ++ [mkMInfo n h Option.none])

/-- `type_hints(cls)` for a plain class: walk the ancestor chain from
most base to most derived recording plain fields, then add the
annotated-but-defaultless members. -/
def typeHintsC (c : ClassD) : List MInfo :=
  let hints := mergedHints c
  hintsAnnotLoop hints (hintsLayersLoop hints c.layers.reverse [])

/-- `info.origin in (Union, UnionType) and NoneType in info.args`: the
member's declared type is a union admitting the null type.  (The bare
`Union` sentinel also has origin `unionForm` but empty `args`, so it
never satisfies this.) -/
def optionalUnion (m : MInfo) : Bool :=
  (match m.origin with | .unionForm => true | _ => false) && m.args.any isNoneB

/-- `value.get(name, ...)`: dict lookup by key equality (the found value,
or the inner `none` when the key is absent). -/
def dictGetF : Nat → List (Value × Value) → Value → Option (Option Value)
  | 0, _, _ => Option.none
  | f + 1, entries, key =>
    match entries with
    | [] => some Option.none
    | (k, w) :: rest =>
      match pyEqF f key k with
      | Option.none => Option.none
      | some true => some (some w)
      | some false => dictGetF f rest key

/-- The member loop of `_to_class` over a plain class spec: resolve each
declared member from the data by name, falling back to the declared
default; with neither, substitute `None` when the member's type is a
union admitting `NoneType` and otherwise skip the member; convert the
resolved value by `to_type`; finally `setattrs(kind(), data, props)`
(every modelled member is a plain field, so `props` is empty and the
fresh instance receives exactly the converted entries in order). -/
def classFieldsF (f : Nat) (entries : List (Value × Value)) (oc : Option Casts) :
    List MInfo → List (String × Value) → Option (Except PyErr Value)
  | [], acc => some (Except.ok (.obj acc))
  | m :: rest, acc =>
    match dictGetF f entries (.str m.name) with
    | Option.none => Option.none
    | some found =>
      match (match found with | some w => some w | Option.none => m.default) with
      | Option.none =>
        if optionalUnion m then
          match toTypeF f Value.none m.hint oc with
          | Option.none => Option.none
          | some (Except.error e) => some (Except.error e)
          | some (Except.ok t) => classFieldsF f entries oc rest (acc ++ [(m.name, t)])
        else classFieldsF f entries oc rest acc
      | some w =>
        match toTypeF f w m.hint oc with
        | Option.none => Option.none
        | some (Except.error e) => some (Except.error e)
        | some (Except.ok t) => classFieldsF f entries oc rest (acc ++ [(m.name, t)])

/-- `_to_class(value, kind, casts)` for a plain class spec: the member
loop for a mapping, the one-argument constructor otherwise (a modelled
plain class accepts no constructor argument). -/
def toClassC (f : Nat) (v : Value) (c : ClassD) (oc : Option Casts) :
    Option (Except PyErr Value) :=
  match v with
  | .dict entries => classFieldsF f entries oc (typeHintsC c) []
  | _ => some (Except.error (PyErr.typeError "SpecClass() takes no arguments" Option.none))

/-- `castfit(spec, data, casts=...)` = `_to_class(data, spec, casts)`. -/
def castfitF (f : Nat) (c : ClassD) (data : List (Value × Value)) (oc : Option Casts) :
    Option (Except PyErr Value) :=
  toClassC f (.dict data) c oc

/-! ## The claims -/

/-- C1: Identity short-circuit — whenever `is_type(value, kind)` holds,
`to_type(value, kind)` returns the value itself unchanged and raises no
error, whatever registry override is passed. -/
theorem to_type_identity_short_circuit (f : Nat) (v : Value) (k : TypeForm)
    (oc : Option Casts) (h : isTypeF f v k = some true) :
    toTypeF (f + 1) v k oc = some (Except.ok v) := by
  simp [toTypeF, h]

/-- Witness for C1 at `to_type(5, int)`. -/
theorem to_type_identity_short_circuit_witness :
    toTypeF 4 (.int 5) .intT Option.none = some (Except.ok (.int 5)) :=
  to_type_identity_short_circuit 3 (.int 5) .intT Option.none rfl

/-- C4: the `Never`/`Any` boundary of `is_subtype` (default variance
mode): everything is a subtype of `Any`; `Any` is a subtype only of
`Any`; nothing — `Never` included — is a subtype of `Never` (the
right-is-`Never` rule fires before the left-is-`Never` rule); and `Never`
is a subtype of every type other than `Never`/`NoReturn`. -/
theorem is_subtype_never_any_boundary (f : Nat) (x : TypeForm) :
    isSubtypeF (f + 1) x .any false false true = some true ∧
    (isSubtypeF (f + 1) .any x false false true = some true ↔ x = .any) ∧
    isSubtypeF (f + 1) x .never false false true = some false ∧
    (x ≠ .never → isSubtypeF (f + 1) .never x false false true = some true) := by
  refine ⟨rfl, ?_, ?_, ?_⟩
  · cases x <;> simp [isSubtypeF, isAnyB]
  · cases x <;> simp [isSubtypeF, isAnyB, isNeverB]
  · intro h
    cases x <;> first | rfl | exact absurd rfl h

/-- Witness for C4's conditional part at `is_subtype(Never, int)`. -/
theorem is_subtype_never_any_boundary_witness :
    isSubtypeF 4 .never .intT false false true = some true :=
  (is_subtype_never_any_boundary 3 .intT).2.2.2 (by intro h; cases h)

/-- The identity-resolution of the registry argument: passing the empty
override dict is the same as passing none (`casts = casts or TYPE_CASTS`
treats both as falsy), at the `to_type` level. -/
theorem toTypeF_empty_casts (f : Nat) (v : Value) (k : TypeForm) :
    toTypeF f v k (some []) = toTypeF f v k Option.none := by
  cases f <;> rfl

/-- The same congruence lifted through the `_to_class` member loop. -/
theorem classFieldsF_empty_casts (f : Nat) (entries : List (Value × Value))
    (hints : List MInfo) (acc : List (String × Value)) :
    classFieldsF f entries (some []) hints acc
      = classFieldsF f entries Option.none hints acc := by
  induction hints generalizing acc with
  | nil => rfl
  | cons m rest ih =>
    simp only [classFieldsF, toTypeF_empty_casts]
    rcases hd : dictGetF f entries (.str m.name) with _ | found
    · rfl
    · rcases hv : (match found with | some w => some w | Option.none => m.default) with _ | w
      · by_cases hU : optionalUnion m = true
        · simp only [hv, hU, if_true]
          rcases ht : toTypeF f Value.none m.hint Option.none with _ | r
          · rfl
          · rcases r with e | t
            · rfl
            · exact ih _
        · simp only [Bool.not_eq_true] at hU
          simp only [hv, hU, if_false]
          exact ih _
      · simp only [hv]
        rcases ht : toTypeF f w m.hint Option.none with _ | r
        · rfl
        · rcases r with e | t
          · rfl
          · exact ih _

/-- C9: an empty override registry is ignored — `to_type` (and `castfit`)
with `casts={}` behave exactly as with no registry argument, because
`casts or TYPE_CASTS` treats the empty dict as falsy and falls back to
the global registry. -/
theorem to_type_empty_override_registry :
    (∀ (f : Nat) (v : Value) (k : TypeForm),
        toTypeF f v k (some []) = toTypeF f v k Option.none) ∧
    (∀ (f : Nat) (c : ClassD) (data : List (Value × Value)),
        castfitF f c data (some []) = castfitF f c data Option.none) := by
  refine ⟨toTypeF_empty_casts, ?_⟩
  intro f c data
  simp only [castfitF, toClassC]
  exact classFieldsF_empty_casts f data (typeHintsC c) []

/-- C5: the converter lookup of `_get_casters` consults exactly the four
keys `(src, dest)`, `(src, dest_origin)`, `(Any, dest)`,
`(Any, dest_origin)` in that order against the (non-empty, hence
unresolved) override registry; the first registered entry wins, and when
all four miss no other key is consulted. -/
theorem get_casters_precedence (f : Nat) (src dest : TypeForm) (cs : Casts)
    (g : CastFn) (hcs : cs.isEmpty = false) :
    (lkCastsF f cs (src, dest) = some (some g) →
       getCastersF f src dest (some cs) = some (some g)) ∧
    (lkCastsF f cs (src, dest) = some Option.none →
       lkCastsF f cs (src, typeInfoOrigin dest) = some (some g) →
       getCastersF f src dest (some cs) = some (some g)) ∧
    (lkCastsF f cs (src, dest) = some Option.none →
       lkCastsF f cs (src, typeInfoOrigin dest) = some Option.none →
       lkCastsF f cs (.any, dest) = some (some g) →
       getCastersF f src dest (some cs) = some (some g)) ∧
    (lkCastsF f cs (src, dest) = some Option.none →
       lkCastsF f cs (src, typeInfoOrigin dest) = some Option.none →
       lkCastsF f cs (.any, dest) = some Option.none →
       lkCastsF f cs (.any, typeInfoOrigin dest) = some (some g) →
       getCastersF f src dest (some cs) = some (some g)) ∧
    (lkCastsF f cs (src, dest) = some Option.none →
       lkCastsF f cs (src, typeInfoOrigin dest) = some Option.none →
       lkCastsF f cs (.any, dest) = some Option.none →
       lkCastsF f cs (.any, typeInfoOrigin dest) = some Option.none →
       getCastersF f src dest (some cs) = some Option.none) := by
  have hres : resolveCasts (some cs) = cs := by
    simp [resolveCasts, hcs]
  refine ⟨?_, ?_, ?_, ?_, ?_⟩
  · intro h1
    simp [getCastersF, hres, h1]
  · intro h1 h2
    simp [getCastersF, hres, h1, h2]
  · intro h1 h2 h3
    simp [getCastersF, hres, h1, h2, h3]
  · intro h1 h2 h3 h4
    simp [getCastersF, hres, h1, h2, h3, h4]
  · intro h1 h2 h3 h4
    simp [getCastersF, hres, h1, h2, h3, h4]

/-- Witness for C5: an exact `(str, int)` entry beats a later `(Any, int)`
entry. -/
theorem get_casters_precedence_witness :
    getCastersF 20 .strT .intT
        (some [((.strT, .intT), CastFn.retConst (.int 7)),
               ((.any, .intT), CastFn.retConst (.int 8))])
      = some (some (CastFn.retConst (.int 7))) :=
  (get_casters_precedence 20 .strT .intT
      [((.strT, .intT), CastFn.retConst (.int 7)),
       ((.any, .intT), CastFn.retConst (.int 8))]
      (CastFn.retConst (.int 7)) rfl).1 rfl

/-- C2: uniform conversion failure — every error `to_type` raises is the
single `TypeError("Cannot cast ... to ...")` with the underlying
lower-level exception attached as its cause; in particular converting
`"break"` to `int` raises that conversion failure wrapping the raw
`ValueError` of the numeric parse (which is never leaked on its own). -/
theorem to_type_uniform_conversion_failure :
    (∀ (f : Nat) (v : Value) (k : TypeForm) (oc : Option Casts) (e : PyErr),
        toTypeF f v k oc = some (Except.error e) →
        ∃ (m : String) (c : PyErr), e = PyErr.typeError m (some c)) ∧
    (∃ (m m2 : String),
        toTypeF 30 (.str "break") .intT Option.none
          = some (Except.error (PyErr.typeError m (some (PyErr.valueError m2))))) := by
  constructor
  · intro f v k oc e h
    cases f with
    | zero => simp [toTypeF] at h
    | succ f =>
      simp only [toTypeF] at h
      repeat' split at h
      all_goals simp_all
      exact ⟨_, _, by first | assumption | (apply Eq.symm; assumption)⟩
  · exact ⟨_, _, rfl⟩

/-- Witness for C2 at the `"break"` to `int` conversion. -/
theorem to_type_uniform_conversion_failure_witness :
    ∃ (m : String) (c : PyErr),
      PyErr.typeError "Cannot cast 'break' to <class 'int'>"
          (some (PyErr.valueError "could not convert string to float: 'break'"))
        = PyErr.typeError m (some c) :=
  to_type_uniform_conversion_failure.1 30 (.str "break") .intT Option.none _ rfl

/-- Modelled from the claim's words, not from the source: "when both
sides are tuple types, a trailing repeat marker `(T, ...)` on either side
is expanded to match the other side's arity before comparison, after
which the arities must match exactly" — each side's trailing marker is
replaced by the other side's arity, then exact arity match and
elementwise (default-mode) subtyping. -/
def tupleRepeatClaimB (f : Nat) (a1 a2 : List TypeForm) : Option Bool :=
  let e1 := if a1.length == 2 && isEllipsisB (a1.getD 1 .any) then
              List.replicate a2.length (a1.headD .any) else a1
  let e2 := if a2.length == 2 && isEllipsisB (a2.getD 1 .any) then
              List.replicate a1.length (a2.headD .any) else a2
  if e1.length != e2.length then some false
  else subZipF f e1 e2 false true

/-- Counterexample to C6: the claim's either-side expansion decides
`is_subtype(tuple[int, ...], tuple[int, int])` as true (expand the left
marker to arity 2, then compare `int <= int` twice), but the source never
expands a left-side marker: the `Ellipsis` element itself is compared and
fails, so `is_subtype` returns false. -/
theorem is_subtype_tuple_repeat_counterexample :
    tupleRepeatClaimB 9 [.intT, .ellipsisMark] [.intT, .intT] = some true ∧
    isSubtypeF 9 (.tupT (some [.intT, .ellipsisMark])) (.tupT (some [.intT, .intT]))
        false false true = some false :=
  ⟨rfl, rfl⟩

/-- C6 as amended: only a trailing repeat marker on the right side is
expanded (to the left side's arity, after which the arities match and the
elements are compared pairwise); a left-side trailing marker is never
expanded, so `is_subtype(tuple[int, ...], tuple[int, int])` is false; the
claim's concrete examples hold: `is_subtype(tuple[int,int,int],
tuple[int,...])` is true and its reverse is false. -/
theorem is_subtype_tuple_repeat_amended :
    (∀ (f : Nat) (a1 : List TypeForm) (t : TypeForm),
        tfEqF f (.tupT (some a1)) (.tupT (some [t, .ellipsisMark])) = some false →
        isSubtypeF (f + 1) (.tupT (some a1)) (.tupT (some [t, .ellipsisMark]))
            false false true
          = subZipF f a1 (List.replicate a1.length t) false true) ∧
    isSubtypeF 9 (.tupT (some [.intT, .intT, .intT])) (.tupT (some [.intT, .ellipsisMark]))
        false false true = some true ∧
    isSubtypeF 9 (.tupT (some [.intT, .ellipsisMark])) (.tupT (some [.intT, .intT, .intT]))
        false false true = some false ∧
    isSubtypeF 9 (.tupT (some [.intT, .ellipsisMark])) (.tupT (some [.intT, .intT]))
        false false true = some false := by
  refine ⟨?_, rfl, rfl, rfl⟩
  intro f a1 t h
  simp only [isSubtypeF, isAnyB, isNeverB, isNoneB, h, Bool.false_and, Bool.and_self,
    if_false, getOrigin, originEqB, tArgs, isEllipsisB, isTower]
  rcases a1 with _ | ⟨x, a1tl⟩
  · simp [subZipF]
  · simp [List.getD]

/-- Witness for C6's amended right-marker law at
`is_subtype(tuple[str], tuple[int, ...])`. -/
theorem is_subtype_tuple_repeat_amended_witness :
    isSubtypeF 11 (.tupT (some [.strT])) (.tupT (some [.intT, .ellipsisMark]))
        false false true
      = subZipF 10 [.strT] (List.replicate 1 .intT) false true :=
  is_subtype_tuple_repeat_amended.1 10 [.strT] .intT rfl

/-- Counterexample to C10: converting the non-empty sized value `"abc"`
to the builtin empty-tuple type `tuple[()]` raises the uniform conversion
failure (wrapping the tuple converter's length `ValueError`) instead of
returning `()`: the builtin `tuple[()]` has an empty argument tuple, so
the `args == ((),)` unconditional early return does not apply to it. -/
theorem to_type_empty_tuple_counterexample :
    toTypeF 30 (.str "abc") (.tupT (some [])) Option.none
      = some (Except.error (PyErr.typeError "Cannot cast 'abc' to tuple[()]"
          (some (PyErr.valueError "Different lengths when casting 'abc' to tuple[()]")))) ∧
    toTypeF 30 (.str "abc") (.tupT (some [])) Option.none
      ≠ some (Except.ok (.tuple [])) := by
  refine ⟨rfl, ?_⟩
  intro h
  rw [show toTypeF 30 (.str "abc") (.tupT (some [])) Option.none
      = some (Except.error (PyErr.typeError "Cannot cast 'abc' to tuple[()]"
          (some (PyErr.valueError "Different lengths when casting 'abc' to tuple[()]"))))
    from rfl] at h
  simp at h

/-- C10 as amended: for the builtin empty-tuple type `tuple[()]` — whose
`get_args` is the empty tuple — only empty (zero-length) sized values
convert to `()`; every non-empty sized value (a non-empty string, list,
tuple or dict) raises the uniform conversion failure wrapping the length
`ValueError`.  The `args == ((),)` unconditional early return applies
only to the legacy `typing.Tuple[()]` representation whose argument tuple
is `((),)` (modelled by `.tupT (some [.unitMark])`), for which every
sized value converts to `()`. -/
theorem to_type_empty_tuple_amended :
    (∀ (f : Nat) (c : Char) (cs : List Char), ∃ (m m2 : String),
        toTypeF (f + 30) (.str (String.mk (c :: cs))) (.tupT (some [])) Option.none
          = some (Except.error (PyErr.typeError m (some (PyErr.valueError m2))))) ∧
    (∀ (f : Nat) (x : Value) (xs : List Value), ∃ (m m2 : String),
        toTypeF (f + 30) (.list (x :: xs)) (.tupT (some [])) Option.none
          = some (Except.error (PyErr.typeError m (some (PyErr.valueError m2))))) ∧
    (∀ (f : Nat) (x : Value) (xs : List Value), ∃ (m m2 : String),
        toTypeF (f + 30) (.tuple (x :: xs)) (.tupT (some [])) Option.none
          = some (Except.error (PyErr.typeError m (some (PyErr.valueError m2))))) ∧
    (∀ (f : Nat) (p : Value × Value) (ps : List (Value × Value)), ∃ (m m2 : String),
        toTypeF (f + 30) (.dict (p :: ps)) (.tupT (some [])) Option.none
          = some (Except.error (PyErr.typeError m (some (PyErr.valueError m2))))) ∧
    (∀ f : Nat,
        toTypeF (f + 30) (.str "") (.tupT (some [])) Option.none
            = some (Except.ok (.tuple [])) ∧
        toTypeF (f + 30) (.list []) (.tupT (some [])) Option.none
            = some (Except.ok (.tuple [])) ∧
        toTypeF (f + 30) (.tuple []) (.tupT (some [])) Option.none
            = some (Except.ok (.tuple [])) ∧
        toTypeF (f + 30) (.dict []) (.tupT (some [])) Option.none
            = some (Except.ok (.tuple []))) ∧
    (∀ (f : Nat) (v : Value), sizedIterable v = true →
        toTypeF (f + 30) v (.tupT (some [.unitMark])) Option.none
          = some (Except.ok (.tuple []))) := by
  refine ⟨?_, ?_, ?_, ?_, ?_, ?_⟩
  · intro f c cs
    exact ⟨_, _, rfl⟩
  · intro f x xs
    exact ⟨_, _, rfl⟩
  · intro f x xs
    exact ⟨_, _, rfl⟩
  · intro f p ps
    exact ⟨_, _, rfl⟩
  · intro f
    exact ⟨rfl, rfl, rfl, rfl⟩
  · intro f v hs
    cases v with
    | str s =>
      rcases s with ⟨cl⟩
      cases cl with
      | nil => rfl
      | cons c cs => rfl
    | list xs => cases xs with
      | nil => rfl
      | cons x xs => rfl
    | tuple xs => cases xs with
      | nil => rfl
      | cons x xs => rfl
    | dict ps => cases ps with
      | nil => rfl
      | cons p ps => rfl
    | none => simp [sizedIterable] at hs
    | bool b => simp [sizedIterable] at hs
    | int n => simp [sizedIterable] at hs
    | float q => simp [sizedIterable] at hs
    | obj a => simp [sizedIterable] at hs

/-- Fuel monotonicity of Python `==`: an answer reached within some
budget is stable under any larger budget. -/
theorem pyEqF_mono (g : Nat) : ∀ (g' : Nat), g ≤ g' →
    (∀ a b r, pyEqF g a b = some r → pyEqF g' a b = some r) ∧
    (∀ xs ys r, pyEqListF g xs ys = some r → pyEqListF g' xs ys = some r) ∧
    (∀ ps qs r, pyEqPairsF g ps qs = some r → pyEqPairsF g' ps qs = some r) ∧
    (∀ as bs r, pyEqAttrsF g as bs = some r → pyEqAttrsF g' as bs = some r) := by
  induction g with
  | zero =>
    intro g' _
    refine ⟨?_, ?_, ?_, ?_⟩ <;> intro a b r h <;>
      simp [pyEqF, pyEqListF, pyEqPairsF, pyEqAttrsF] at h
  | succ g ih =>
    intro g' hle
    obtain ⟨g2, rfl⟩ : ∃ g2, g' = g2 + 1 := ⟨g' - 1, by omega⟩
    have IH := ih g2 (by omega)
    refine ⟨?_, ?_, ?_, ?_⟩
    · intro a b r h
      cases a <;> cases b <;> simp only [pyEqF] at h ⊢ <;>
        first
          | exact h
          | exact IH.2.1 _ _ _ h
          | exact IH.2.2.1 _ _ _ h
          | exact IH.2.2.2 _ _ _ h
    · intro xs ys r h
      cases xs with
      | nil => cases ys <;> simpa [pyEqListF] using h
      | cons x xs =>
        cases ys with
        | nil => simpa [pyEqListF] using h
        | cons y ys =>
          simp only [pyEqListF] at h ⊢
          rcases he : pyEqF g x y with _ | b
          · rw [he] at h; exact absurd h (by simp)
          · rw [he] at h
            rw [IH.1 _ _ _ he]
            cases b
            · exact h
            · exact IH.2.1 _ _ _ h
    · intro ps qs r h
      cases ps with
      | nil => cases qs <;> simpa [pyEqPairsF] using h
      | cons p ps =>
        cases qs with
        | nil => simpa [pyEqPairsF] using h
        | cons q qs =>
          obtain ⟨k1, v1⟩ := p
          obtain ⟨k2, v2⟩ := q
          simp only [pyEqPairsF] at h ⊢
          rcases he : pyEqF g k1 k2 with _ | b
          · rw [he] at h; exact absurd h (by simp)
          · rw [he] at h
            rw [IH.1 _ _ _ he]
            cases b
            · exact h
            · rcases he2 : pyEqF g v1 v2 with _ | b2
              · rw [he2] at h; exact absurd h (by simp)
              · rw [he2] at h
                rw [IH.1 _ _ _ he2]
                cases b2
                · exact h
                · exact IH.2.2.1 _ _ _ h
    · intro as bs r h
      cases as with
      | nil => cases bs <;> simpa [pyEqAttrsF] using h
      | cons a2 as2 =>
        cases bs with
        | nil => simpa [pyEqAttrsF] using h
        | cons b2 bs2 =>
          obtain ⟨n1, v1⟩ := a2
          obtain ⟨n2, v2⟩ := b2
          simp only [pyEqAttrsF] at h ⊢
          by_cases hn : (n1 == n2) = true
          · simp only [hn, if_true] at h ⊢
            rcases he : pyEqF g v1 v2 with _ | b
            · rw [he] at h; exact absurd h (by simp)
            · rw [he] at h
              rw [IH.1 _ _ _ he]
              cases b
              · exact h
              · exact IH.2.2.2 _ _ _ h
          · simp only [Bool.not_eq_true] at hn
            simp only [hn, Bool.false_eq_true, if_false] at h ⊢
            exact h

/-- Two decided answers of Python `==` agree, whatever the budgets. -/
theorem pyEqF_agree (g g' : Nat) (a b : Value) (r r' : Bool)
    (h : pyEqF g a b = some r) (h' : pyEqF g' a b = some r') : r = r' := by
  rcases Nat.le_total g g' with hle | hle
  · have h2 := (pyEqF_mono g g' hle).1 a b r h
    rw [h2] at h'
    exact Option.some.inj h'
  · have h2 := (pyEqF_mono g' g hle).1 a b r' h'
    rw [h2] at h
    exact (Option.some.inj h).symm

/-- A decided-true membership yields an equal declared value. -/
theorem pyMemF_true_exists (vs : List Value) :
    ∀ (f : Nat) (v : Value), pyMemF f v vs = some true →
      ∃ w ∈ vs, ∃ g, pyEqF g v w = some true := by
  induction vs with
  | nil =>
    intro f v h
    cases f <;> simp [pyMemF] at h
  | cons x rest ih =>
    intro f v h
    cases f with
    | zero => simp [pyMemF] at h
    | succ f =>
      simp only [pyMemF] at h
      rcases he : pyEqF f v x with _ | b
      · rw [he] at h; exact absurd h (by simp)
      · rw [he] at h
        cases b
        · obtain ⟨w, hw, g, hg⟩ := ih f v h
          exact ⟨w, List.mem_cons_of_mem _ hw, g, hg⟩
        · exact ⟨x, List.mem_cons_self _ _, f, he⟩

/-- A decided-false membership excludes every declared value. -/
theorem pyMemF_false_excludes (vs : List Value) :
    ∀ (f : Nat) (v w : Value) (g : Nat), pyMemF f v vs = some false →
      w ∈ vs → pyEqF g v w = some true → False := by
  induction vs with
  | nil =>
    intro f v w g _ hw _
    exact absurd hw (List.not_mem_nil _)
  | cons x rest ih =>
    intro f v w g h hw hg
    cases f with
    | zero => simp [pyMemF] at h
    | succ f =>
      simp only [pyMemF] at h
      rcases he : pyEqF f v x with _ | b
      · rw [he] at h; exact absurd h (by simp)
      · rw [he] at h
        cases b
        · rcases List.mem_cons.mp hw with rfl | hw2
          · exact absurd (pyEqF_agree f g v w false true he hg) (by simp)
          · exact ih f v w g h hw2 hg
        · exact absurd h (by simp)

/-- C8: `Literal` membership — `is_type(value, Literal[v1..vn])` is
exactly the membership test of the value among the declared literal
values by Python `==` (`value in args`), and it decides true precisely
when the value equals one of the declared values. -/
theorem is_type_literal_membership :
    (∀ (f : Nat) (v : Value) (vs : List Value),
        isTypeF (f + 1) v (.lit vs) = pyMemF f v vs) ∧
    (∀ (f : Nat) (v : Value) (vs : List Value) (b : Bool),
        isTypeF (f + 1) v (.lit vs) = some b →
        (b = true ↔ ∃ w ∈ vs, ∃ g, pyEqF g v w = some true)) := by
  have heq : ∀ (f : Nat) (v : Value) (vs : List Value),
      isTypeF (f + 1) v (.lit vs) = pyMemF f v vs := fun f v vs => rfl
  refine ⟨heq, ?_⟩
  intro f v vs b h
  rw [heq] at h
  constructor
  · intro hb
    subst hb
    exact pyMemF_true_exists vs f v h
  · intro ⟨w, hw, g, hg⟩
    cases b with
    | true => rfl
    | false => exact absurd (pyMemF_false_excludes vs f v w g h hw hg) (by simp)

/-! ## Supporting lemmas on the class-member loops -/

/-- A first-match lookup found in a prefix survives any extension. -/
theorem lookupStr_append_of_some {α : Type} (l1 l2 : List (String × α)) (n : String)
    (x : α) (h : lookupStr l1 n = some x) : lookupStr (l1 ++ l2) n = some x := by
  induction l1 with
  | nil => simp [lookupStr] at h
  | cons p rest ih =>
    obtain ⟨pn, pv⟩ := p
    simp only [lookupStr, List.cons_append] at h ⊢
    by_cases hn : (pn == n) = true
    · simpa [hn] using h
    · simp only [Bool.not_eq_true] at hn
      simp only [hn, Bool.false_eq_true, if_false] at h ⊢
      exact ih h

/-- A lookup that misses a prefix continues in the suffix. -/
theorem lookupStr_append_of_none {α : Type} (l1 l2 : List (String × α)) (n : String)
    (h : lookupStr l1 n = Option.none) : lookupStr (l1 ++ l2) n = lookupStr l2 n := by
  induction l1 with
  | nil => rfl
  | cons p rest ih =>
    obtain ⟨pn, pv⟩ := p
    simp only [lookupStr, List.cons_append] at h ⊢
    by_cases hn : (pn == n) = true
    · simp [hn] at h
    · simp only [Bool.not_eq_true] at hn
      simp only [hn, Bool.false_eq_true, if_false] at h ⊢
      exact ih h

/-- A lookup among pairs whose keys all differ from the name misses. -/
theorem lookupStr_eq_none_of_all {α : Type} (l : List (String × α)) (n : String)
    (h : ∀ p ∈ l, p.1 ≠ n) : lookupStr l n = Option.none := by
  induction l with
  | nil => rfl
  | cons p rest ih =>
    obtain ⟨pn, pv⟩ := p
    have hpn : pn ≠ n := h (pn, pv) (List.mem_cons_self _ _)
    simp only [lookupStr]
    rw [if_neg (by simpa using hpn)]
    exact ih (fun q hq => h q (List.mem_cons_of_mem _ hq))

/-- `name in result` is membership among the recorded names. -/
theorem containsName_false_not_mem (acc : List MInfo) (n : String)
    (h : containsName acc n = false) : ∀ m ∈ acc, m.name ≠ n := by
  intro m hm
  simp only [containsName, List.any_eq_false] at h
  simpa using h m hm

/-- One step of the `_to_class` member loop either records the member (as
some converted value) or skips it, and then continues. -/
theorem classFieldsF_cons_inv (f : Nat) (entries : List (Value × Value))
    (oc : Option Casts) (m : MInfo) (rest : List MInfo) (acc : List (String × Value))
    (r : Value) (h : classFieldsF f entries oc (m :: rest) acc = some (Except.ok r)) :
    ∃ acc2, (acc2 = acc ∨ ∃ t, acc2 = acc ++ [(m.name, t)]) ∧
      classFieldsF f entries oc rest acc2 = some (Except.ok r) := by
  simp only [classFieldsF] at h
  rcases hd : dictGetF f entries (.str m.name) with _ | found
  · simp only [hd] at h
    exact absurd h (by simp)
  · simp only [hd] at h
    rcases hv : (match found with | some w => some w | Option.none => m.default) with _ | w
    · simp only [hv] at h
      by_cases hU : optionalUnion m = true
      · rw [if_pos hU] at h
        rcases ht : toTypeF f Value.none m.hint oc with _ | res
        · simp only [ht] at h
          exact absurd h (by simp)
        · simp only [ht] at h
          rcases res with e | t
          · exact absurd h (by simp)
          · exact ⟨acc ++ [(m.name, t)], Or.inr ⟨t, rfl⟩, h⟩
      · rw [if_neg hU] at h
        exact ⟨acc, Or.inl rfl, h⟩
    · simp only [hv] at h
      rcases ht : toTypeF f w m.hint oc with _ | res
      · simp only [ht] at h
        exact absurd h (by simp)
      · simp only [ht] at h
        rcases res with e | t
        · exact absurd h (by simp)
        · exact ⟨acc ++ [(m.name, t)], Or.inr ⟨t, rfl⟩, h⟩

/-- Running the `_to_class` member loop over a prefix reaches the suffix
with an extended accumulator whose new entries are named by prefix
members. -/
theorem classFieldsF_append (f : Nat) (entries : List (Value × Value))
    (oc : Option Casts) :
    ∀ (pre rest : List MInfo) (acc : List (String × Value)) (r : Value),
      classFieldsF f entries oc (pre ++ rest) acc = some (Except.ok r) →
      ∃ ext, (∀ p ∈ ext, ∃ m ∈ pre, p.1 = m.name) ∧
        classFieldsF f entries oc rest (acc ++ ext) = some (Except.ok r) := by
  intro pre
  induction pre with
  | nil =>
    intro rest acc r h
    refine ⟨[], ?_, ?_⟩
    · intro p hp
      exact absurd hp (List.not_mem_nil _)
    · simpa using h
  | cons m pre2 ih =>
    intro rest acc r h
    obtain ⟨acc2, hacc2, h2⟩ := classFieldsF_cons_inv f entries oc m (pre2 ++ rest) acc r
      (by simpa using h)
    obtain ⟨ext2, hext2, h3⟩ := ih rest acc2 r h2
    rcases hacc2 with rfl | ⟨t, rfl⟩
    · refine ⟨ext2, ?_, h3⟩
      intro p hp
      obtain ⟨m2, hm2, hn⟩ := hext2 p hp
      exact ⟨m2, List.mem_cons_of_mem _ hm2, hn⟩
    · refine ⟨(m.name, t) :: ext2, ?_, by simpa using h3⟩
      intro p hp
      rcases List.mem_cons.mp hp with rfl | hp2
      · exact ⟨m, List.mem_cons_self _ _, rfl⟩
      · obtain ⟨m2, hm2, hn⟩ := hext2 p hp2
        exact ⟨m2, List.mem_cons_of_mem _ hm2, hn⟩

/-- Once the accumulator resolves a name, the finished instance resolves
it the same way (the loop only appends). -/
theorem classFieldsF_lookup_some (f : Nat) (entries : List (Value × Value))
    (oc : Option Casts) (hints : List MInfo) (acc attrs : List (String × Value))
    (n : String) (x : Value)
    (h : classFieldsF f entries oc hints acc = some (Except.ok (Value.obj attrs)))
    (hacc : lookupStr acc n = some x) : lookupStr attrs n = some x := by
  obtain ⟨ext, _, h2⟩ := classFieldsF_append f entries oc hints [] acc (Value.obj attrs)
    (by simpa using h)
  have : attrs = acc ++ ext := by
    cases h2'' : classFieldsF f entries oc [] (acc ++ ext) with
    | none => rw [h2''] at h2; exact absurd h2 (by simp)
    | some r2 =>
      have : classFieldsF f entries oc [] (acc ++ ext) = some (Except.ok (Value.obj (acc ++ ext))) := rfl
      rw [this] at h2
      exact (Value.obj.inj (Except.ok.inj (Option.some.inj h2))).symm
  subst this
  exact lookupStr_append_of_some acc ext n x hacc

/-- A name no remaining member carries and the accumulator lacks stays
unset on the finished instance. -/
theorem classFieldsF_lookup_none (f : Nat) (entries : List (Value × Value))
    (oc : Option Casts) (hints : List MInfo) (acc attrs : List (String × Value))
    (n : String)
    (h : classFieldsF f entries oc hints acc = some (Except.ok (Value.obj attrs)))
    (hacc : lookupStr acc n = Option.none)
    (hni : ∀ m ∈ hints, m.name ≠ n) : lookupStr attrs n = Option.none := by
  obtain ⟨ext, hext, h2⟩ := classFieldsF_append f entries oc hints [] acc (Value.obj attrs)
    (by simpa using h)
  have hattrs : attrs = acc ++ ext := by
    have heq : classFieldsF f entries oc [] (acc ++ ext) = some (Except.ok (Value.obj (acc ++ ext))) := rfl
    rw [heq] at h2
    exact (Value.obj.inj (Except.ok.inj (Option.some.inj h2))).symm
  subst hattrs
  rw [lookupStr_append_of_none acc ext n hacc]
  refine lookupStr_eq_none_of_all ext n ?_
  intro p hp
  obtain ⟨m2, hm2, hn2⟩ := hext p hp
  rw [hn2]
  exact hni m2 hm2

/-- An unrecorded name is absent from the recorded names. -/
theorem not_mem_names_of_containsName_false (acc : List MInfo) (n : String)
    (h : containsName acc n = false) : n ∉ acc.map MInfo.name := by
  intro hmem
  obtain ⟨m, hm, hname⟩ := List.mem_map.mp hmem
  exact containsName_false_not_mem acc n h m hm hname

/-- Appending a freshly-named entry keeps the recorded names distinct. -/
theorem names_nodup_append_single (acc : List MInfo) (e : MInfo)
    (hnd : (acc.map MInfo.name).Nodup) (hnot : e.name ∉ acc.map MInfo.name) :
    (((acc ++ [e]).map MInfo.name)).Nodup := by
  rw [List.map_append]
  rw [List.nodup_append]
  exact ⟨hnd, List.nodup_singleton _, by
    intro x hx hx2
    simp only [List.map_cons, List.map_nil, List.mem_singleton] at hx2
    subst hx2
    exact hnot hx⟩

/-- The per-ancestor loop of `type_hints` records each name at most
once. -/
theorem hintsAttrLoop_nodup (hints : List (String × TypeForm))
    (attrs : List (String × ClsAttr)) :
    ∀ acc, (acc.map MInfo.name).Nodup →
      ((hintsAttrLoop hints attrs acc).map MInfo.name).Nodup := by
  induction attrs with
  | nil => intro acc h; simpa [hintsAttrLoop] using h
  | cons p rest ih =>
    intro acc h
    obtain ⟨n, a⟩ := p
    simp only [hintsAttrLoop]
    by_cases hc : (containsName acc n || strStartsUS n) = true
    · rw [if_pos hc]
      exact ih acc h
    · rw [if_neg hc]
      cases a with
      | func => exact ih acc h
      | val v =>
        refine ih _ (names_nodup_append_single acc _ h ?_)
        simp only [Bool.or_eq_true, not_or, Bool.not_eq_true] at hc
        exact not_mem_names_of_containsName_false acc n hc.1

/-- The ancestor walk of `type_hints` records each name at most once. -/
theorem hintsLayersLoop_nodup (hints : List (String × TypeForm)) (layers : List Layer) :
    ∀ acc, (acc.map MInfo.name).Nodup →
      ((hintsLayersLoop hints layers acc).map MInfo.name).Nodup := by
  induction layers with
  | nil => intro acc h; simpa [hintsLayersLoop] using h
  | cons layer rest ih =>
    intro acc h
    simp only [hintsLayersLoop]
    exact ih _ (hintsAttrLoop_nodup hints layer.attrs acc h)

/-- The trailing annotation loop of `type_hints` records each name at
most once. -/
theorem hintsAnnotLoop_nodup (hints : List (String × TypeForm)) :
    ∀ acc, (acc.map MInfo.name).Nodup →
      ((hintsAnnotLoop hints acc).map MInfo.name).Nodup := by
  induction hints with
  | nil => intro acc h; simpa [hintsAnnotLoop] using h
  | cons p rest ih =>
    intro acc h
    obtain ⟨n, t⟩ := p
    simp only [hintsAnnotLoop]
    by_cases hc : containsName acc n = true
    · rw [if_pos hc]
      exact ih acc h
    · rw [if_neg hc]
      refine ih _ (names_nodup_append_single acc _ h ?_)
      simp only [Bool.not_eq_true] at hc
      exact not_mem_names_of_containsName_false acc n hc

/-- `type_hints` maps each member name to one entry. -/
theorem typeHintsC_names_nodup (c : ClassD) :
    ((typeHintsC c).map MInfo.name).Nodup := by
  unfold typeHintsC
  exact hintsAnnotLoop_nodup _ _
    (hintsLayersLoop_nodup _ _ [] (by simp))

/-- Every entry of `type_hints` carries the origin and type arguments of
its own hint (it was built by `mkMInfo`). -/
theorem typeHintsC_shape (c : ClassD) :
    ∀ m ∈ typeHintsC c, m.origin = typeInfoOrigin m.hint ∧ m.args = tArgs m.hint := by
  have hattr : ∀ (hints : List (String × TypeForm)) (attrs : List (String × ClsAttr))
      (acc : List MInfo),
      (∀ m ∈ acc, m.origin = typeInfoOrigin m.hint ∧ m.args = tArgs m.hint) →
      ∀ m ∈ hintsAttrLoop hints attrs acc,
        m.origin = typeInfoOrigin m.hint ∧ m.args = tArgs m.hint := by
    intro hints attrs
    induction attrs with
    | nil => intro acc h; simpa [hintsAttrLoop] using h
    | cons p rest ih =>
      intro acc h
      obtain ⟨n, a⟩ := p
      simp only [hintsAttrLoop]
      by_cases hc : (containsName acc n || strStartsUS n) = true
      · rw [if_pos hc]; exact ih acc h
      · rw [if_neg hc]
        cases a with
        | func => exact ih acc h
        | val v =>
          refine ih _ ?_
          intro m hm
          rcases List.mem_append.mp hm with hm2 | hm2
          · exact h m hm2
          · rw [List.mem_singleton.mp hm2]
            exact ⟨rfl, rfl⟩
  have hlayers : ∀ (hints : List (String × TypeForm)) (layers : List Layer)
      (acc : List MInfo),
      (∀ m ∈ acc, m.origin = typeInfoOrigin m.hint ∧ m.args = tArgs m.hint) →
      ∀ m ∈ hintsLayersLoop hints layers acc,
        m.origin = typeInfoOrigin m.hint ∧ m.args = tArgs m.hint := by
    intro hints layers
    induction layers with
    | nil => intro acc h; simpa [hintsLayersLoop] using h
    | cons layer rest ih =>
      intro acc h
      simp only [hintsLayersLoop]
      exact ih _ (hattr hints layer.attrs acc h)
  have hannot : ∀ (hints : List (String × TypeForm)) (acc : List MInfo),
      (∀ m ∈ acc, m.origin = typeInfoOrigin m.hint ∧ m.args = tArgs m.hint) →
      ∀ m ∈ hintsAnnotLoop hints acc,
        m.origin = typeInfoOrigin m.hint ∧ m.args = tArgs m.hint := by
    intro hints
    induction hints with
    | nil => intro acc h; simpa [hintsAnnotLoop] using h
    | cons p rest ih =>
      intro acc h
      obtain ⟨n, t⟩ := p
      simp only [hintsAnnotLoop]
      by_cases hc : containsName acc n = true
      · rw [if_pos hc]; exact ih acc h
      · rw [if_neg hc]
        refine ih _ ?_
        intro m hm
        rcases List.mem_append.mp hm with hm2 | hm2
        · exact h m hm2
        · rw [List.mem_singleton.mp hm2]
          exact ⟨rfl, rfl⟩
  unfold typeHintsC
  exact hannot _ _ (hlayers _ _ [] (by simp))

/-- An optional-union entry's hint is a union admitting `NoneType`. -/
theorem optionalUnion_hint (m : MInfo)
    (hs : m.origin = typeInfoOrigin m.hint) (ha : m.args = tArgs m.hint)
    (hU : optionalUnion m = true) :
    ∃ args, m.hint = .union args ∧ args.any isNoneB = true := by
  simp only [optionalUnion, Bool.and_eq_true] at hU
  obtain ⟨ho, hany⟩ := hU
  have horigin : m.origin = .unionForm := by
    cases hcase : m.origin <;> rw [hcase] at ho <;> first | rfl | simp at ho
  rw [horigin] at hs
  cases hh : m.hint
  case union args =>
    refine ⟨args, rfl, ?_⟩
    rw [ha, hh] at hany
    simpa [tArgs] using hany
  case unionForm =>
    rw [ha, hh] at hany
    simp [tArgs] at hany
  case listT arg =>
    rw [hh] at hs
    cases arg <;> simp [typeInfoOrigin, getOrigin] at hs
  case dictT a2 =>
    rw [hh] at hs
    cases a2 <;> simp [typeInfoOrigin, getOrigin] at hs
  case tupT a2 =>
    rw [hh] at hs
    cases a2 <;> simp [typeInfoOrigin, getOrigin] at hs
  all_goals rw [hh] at hs
  all_goals simp [typeInfoOrigin, getOrigin] at hs

/-- `is_type(None, Union[...])` cannot decide false when `NoneType` is a
member of the union. -/
theorem isTypeAnyF_none_not_false (args : List TypeForm) :
    ∀ (g : Nat) (b : Bool), isTypeAnyF g Value.none args = some b →
      args.any isNoneB = true → b = true := by
  induction args with
  | nil => intro g b _ hany; simp at hany
  | cons a rest ih =>
    intro g b h hany
    cases g with
    | zero => simp [isTypeAnyF] at h
    | succ g =>
      simp only [isTypeAnyF] at h
      rcases he : isTypeF g Value.none a with _ | b2
      · rw [he] at h; exact absurd h (by simp)
      · rw [he] at h
        cases b2
        · cases hna : isNoneB a with
          | true =>
            have haT : a = .noneT := by
              cases a <;> simp [isNoneB] at hna
              rfl
            subst haT
            cases g with
            | zero => simp [isTypeF] at he
            | succ g => simp [isTypeF, isAnyB, isNeverB, isNoneB] at he
          | false =>
            have : rest.any isNoneB = true := by
              simpa [hna] using hany
            exact ih g b h this
        · simpa using h.symm

/-- Converting `None` to an optional union is the identity: the declared
`NoneType` member makes the `is_type` short-circuit fire. -/
theorem toTypeF_none_optional (f : Nat) (oc : Option Casts) (args : List TypeForm)
    (t : Value) (h : toTypeF f Value.none (.union args) oc = some (Except.ok t))
    (hany : args.any isNoneB = true) : t = Value.none := by
  cases f with
  | zero => simp [toTypeF] at h
  | succ f =>
    simp only [toTypeF] at h
    rcases hi : isTypeF f Value.none (.union args) with _ | b
    · rw [hi] at h; exact absurd h (by simp)
    · rw [hi] at h
      cases b
      · cases f with
        | zero => simp [isTypeF] at hi
        | succ f =>
          have : isTypeAnyF f Value.none args = some false := by
            simpa [isTypeF, isAnyB, isNeverB, isNoneB, typeInfoOrigin, getOrigin,
              originEqB, tArgs] using hi
          exact absurd (isTypeAnyF_none_not_false args f false this hany) (by simp)
      · simp only [Option.some.injEq] at h
        exact (Except.ok.inj h).symm

/-- C3: the record-construction missing-member rule — when building an
instance from a mapping, a declared member whose name is absent from the
data and that has no declared default is resolved to `None` (and
converted through its declared type, which keeps it `None`) when its type
is a union admitting `NoneType`; otherwise the member is skipped entirely
and left unset on the constructed instance. -/
theorem castfit_missing_member_rule (f : Nat) (c : ClassD)
    (entries : List (Value × Value)) (oc : Option Casts)
    (attrs : List (String × Value)) (m : MInfo)
    (hrun : castfitF f c entries oc = some (Except.ok (Value.obj attrs)))
    (hmem : m ∈ typeHintsC c)
    (habs : dictGetF f entries (.str m.name) = some Option.none)
    (hdef : m.default = Option.none) :
    (optionalUnion m = true → lookupStr attrs m.name = some Value.none) ∧
    (optionalUnion m = false → lookupStr attrs m.name = Option.none) := by
  obtain ⟨pre, post, hsplit⟩ := List.append_of_mem hmem
  have hrun2 : classFieldsF f entries oc (pre ++ m :: post) []
      = some (Except.ok (Value.obj attrs)) := by
    rw [← hsplit]
    exact hrun
  have hnd := typeHintsC_names_nodup c
  rw [hsplit, List.map_append, List.map_cons, List.nodup_append] at hnd
  obtain ⟨hndpre, hndcons, hdisj⟩ := hnd
  have hmpre : m.name ∉ pre.map MInfo.name := fun hx =>
    hdisj hx (List.mem_cons_self _ _)
  have hmpost : m.name ∉ post.map MInfo.name := (List.nodup_cons.mp hndcons).1
  obtain ⟨ext, hext, h2⟩ :=
    classFieldsF_append f entries oc pre (m :: post) [] (Value.obj attrs) hrun2
  rw [List.nil_append] at h2
  have hacc2 : lookupStr ext m.name = Option.none := by
    refine lookupStr_eq_none_of_all _ _ ?_
    intro p hp
    obtain ⟨m2, hm2, hn2⟩ := hext p hp
    rw [hn2]
    intro heq
    exact hmpre (heq ▸ List.mem_map_of_mem MInfo.name hm2)
  simp only [classFieldsF, habs, hdef] at h2
  constructor
  · intro hU
    rw [if_pos hU] at h2
    rcases ht : toTypeF f Value.none m.hint oc with _ | res
    · simp only [ht] at h2
      exact absurd h2 (by simp)
    · simp only [ht] at h2
      rcases res with e | t
      · exact absurd h2 (by simp)
      · obtain ⟨hsO, hsA⟩ := typeHintsC_shape c m hmem
        obtain ⟨args, hhint, hany⟩ := optionalUnion_hint m hsO hsA hU
        rw [hhint] at ht
        have htn : t = Value.none := toTypeF_none_optional f oc args t ht hany
        subst htn
        refine classFieldsF_lookup_some f entries oc post _ attrs m.name Value.none h2 ?_
        rw [lookupStr_append_of_none _ _ _ hacc2]
        simp [lookupStr]
  · intro hU
    rw [if_neg (by simp [hU])] at h2
    refine classFieldsF_lookup_none f entries oc post _ attrs m.name h2 hacc2 ?_
    intro m2 hm2 heq
    exact hmpost (heq ▸ List.mem_map_of_mem MInfo.name hm2)

/-- Witness for C3 at a one-member optional spec built from empty data:
the member resolves to `None`. -/
theorem castfit_missing_member_rule_witness :
    lookupStr [("x", Value.none)] "x" = some Value.none :=
  (castfit_missing_member_rule 30 ⟨[⟨[], [("x", .union [.intT, .noneT])]⟩]⟩ []
      Option.none [("x", Value.none)] (mkMInfo "x" (.union [.intT, .noneT]) Option.none)
      rfl (List.mem_singleton_self _) rfl rfl).1 rfl

/-! ## Supporting lemmas for the `type_hints` ordering claim -/

/-- First-match lookup among recorded member entries (the mapping
`type_hints` returns, keyed by member name). -/
def lookupMInfo : List MInfo → String → Option MInfo
  | [], _ => Option.none
  | m :: rest, n => if m.name == n then some m else lookupMInfo rest n

/-- The first plain (non-function) class-body value recorded for a name
while scanning one ancestor's `__dict__`. -/
def firstValAttrs : List (String × ClsAttr) → String → Option Value
  | [], _ => Option.none
  | (m, a) :: rest, n =>
    if m == n then
      match a with
      | ClsAttr.val v => some v
      | ClsAttr.func => firstValAttrs rest n
    else firstValAttrs rest n

/-- The first plain class-body value for a name along an ancestor walk
(callers pass `layers.reverse`, most base first). -/
def firstValLayers : List Layer → String → Option Value
  | [], _ => Option.none
  | layer :: rest, n =>
    match firstValAttrs layer.attrs n with
    | some v => some v
    | Option.none => firstValLayers rest n

/-- A found first-match member lookup survives appending. -/
theorem lookupMInfo_append_of_some (l1 l2 : List MInfo) (n : String) (e : MInfo)
    (h : lookupMInfo l1 n = some e) : lookupMInfo (l1 ++ l2) n = some e := by
  induction l1 with
  | nil => simp [lookupMInfo] at h
  | cons m rest ih =>
    simp only [lookupMInfo, List.cons_append] at h ⊢
    by_cases hm : (m.name == n) = true
    · simpa [hm] using h
    · simp only [Bool.not_eq_true] at hm
      simp only [hm, Bool.false_eq_true, if_false] at h ⊢
      exact ih h

/-- An unrecorded name has no first-match entry. -/
theorem lookupMInfo_eq_none_of_containsName_false (acc : List MInfo) (n : String)
    (h : containsName acc n = false) : lookupMInfo acc n = Option.none := by
  induction acc with
  | nil => rfl
  | cons m rest ih =>
    simp only [containsName, List.any_cons, Bool.or_eq_false_iff] at h
    simp only [lookupMInfo, h.1, Bool.false_eq_true, if_false]
    exact ih (by simpa [containsName] using h.2)

/-- Recording one more entry extends the `name in result` test. -/
theorem containsName_append_single (acc : List MInfo) (e : MInfo) (n : String) :
    containsName (acc ++ [e]) n = (containsName acc n || (e.name == n)) := by
  simp [containsName, List.any_append]

/-- The per-ancestor loop only appends entries. -/
theorem hintsAttrLoop_extends (hints : List (String × TypeForm))
    (attrs : List (String × ClsAttr)) :
    ∀ acc, ∃ ext, hintsAttrLoop hints attrs acc = acc ++ ext := by
  induction attrs with
  | nil => intro acc; exact ⟨[], by simp [hintsAttrLoop]⟩
  | cons p rest ih =>
    intro acc
    obtain ⟨n, a⟩ := p
    simp only [hintsAttrLoop]
    by_cases hc : (containsName acc n || strStartsUS n) = true
    · rw [if_pos hc]; exact ih acc
    · rw [if_neg hc]
      cases a with
      | func => exact ih acc
      | val v =>
        obtain ⟨ext, hext⟩ := ih (acc ++ [mkMInfo n (hintFor hints n v) (some v)])
        exact ⟨mkMInfo n (hintFor hints n v) (some v) :: ext, by simpa using hext⟩

/-- The ancestor walk only appends entries. -/
theorem hintsLayersLoop_extends (hints : List (String × TypeForm)) (layers : List Layer) :
    ∀ acc, ∃ ext, hintsLayersLoop hints layers acc = acc ++ ext := by
  induction layers with
  | nil => intro acc; exact ⟨[], by simp [hintsLayersLoop]⟩
  | cons layer rest ih =>
    intro acc
    simp only [hintsLayersLoop]
    obtain ⟨e1, he1⟩ := hintsAttrLoop_extends hints layer.attrs acc
    obtain ⟨e2, he2⟩ := ih (hintsAttrLoop hints layer.attrs acc)
    exact ⟨e1 ++ e2, by rw [he2, he1, List.append_assoc]⟩

/-- The trailing annotation loop only appends entries. -/
theorem hintsAnnotLoop_extends (hints : List (String × TypeForm)) :
    ∀ acc, ∃ ext, hintsAnnotLoop hints acc = acc ++ ext := by
  induction hints with
  | nil => intro acc; exact ⟨[], by simp [hintsAnnotLoop]⟩
  | cons p rest ih =>
    intro acc
    obtain ⟨n, t⟩ := p
    simp only [hintsAnnotLoop]
    by_cases hc : containsName acc n = true
    · rw [if_pos hc]; exact ih acc
    · rw [if_neg hc]
      obtain ⟨ext, hext⟩ := ih (acc ++ [mkMInfo n t Option.none])
      exact ⟨mkMInfo n t Option.none :: ext, by simpa using hext⟩

/-- As long as an ancestor's `__dict__` offers no plain value for a
(non-dunder) name, the loop does not record that name. -/
theorem hintsAttrLoop_not_contains (hints : List (String × TypeForm))
    (attrs : List (String × ClsAttr)) :
    ∀ acc n, firstValAttrs attrs n = Option.none → containsName acc n = false →
      containsName (hintsAttrLoop hints attrs acc) n = false := by
  induction attrs with
  | nil => intro acc n _ h; simpa [hintsAttrLoop] using h
  | cons p rest ih =>
    intro acc n hfv h
    obtain ⟨m2, a⟩ := p
    simp only [firstValAttrs] at hfv
    simp only [hintsAttrLoop]
    by_cases hm : (m2 == n) = true
    · rw [if_pos hm] at hfv
      cases a with
      | val v => exact absurd hfv (by simp)
      | func =>
        by_cases hc : (containsName acc m2 || strStartsUS m2) = true
        · rw [if_pos hc]; exact ih acc n hfv h
        · rw [if_neg hc]; exact ih acc n hfv h
    · simp only [Bool.not_eq_true] at hm
      rw [if_neg (by simp [hm])] at hfv
      by_cases hc : (containsName acc m2 || strStartsUS m2) = true
      · rw [if_pos hc]; exact ih acc n hfv h
      · rw [if_neg hc]
        cases a with
        | func => exact ih acc n hfv h
        | val v =>
          refine ih _ n hfv ?_
          rw [containsName_append_single]
          simp [h, mkMInfo, hm]

/-- A first-match lookup passes over a null prefix. -/
theorem lookupMInfo_append_of_none (l1 l2 : List MInfo) (n : String)
    (h : lookupMInfo l1 n = Option.none) : lookupMInfo (l1 ++ l2) n = lookupMInfo l2 n := by
  induction l1 with
  | nil => simp
  | cons m rest ih =>
    simp only [lookupMInfo, List.cons_append] at h ⊢
    by_cases hm : (m.name == n) = true
    · simp [hm] at h
    · simp only [Bool.not_eq_true] at hm
      simp only [hm, Bool.false_eq_true, if_false] at h ⊢
      exact ih h

/-- The per-ancestor loop records the first plain value it meets for a
fresh, non-dunder name, with the merged hint and that value as default. -/
theorem hintsAttrLoop_records (hints : List (String × TypeForm))
    (attrs : List (String × ClsAttr)) :
    ∀ acc n v, strStartsUS n = false → containsName acc n = false →
      firstValAttrs attrs n = some v →
      lookupMInfo (hintsAttrLoop hints attrs acc) n
        = some (mkMInfo n (hintFor hints n v) (some v)) := by
  induction attrs with
  | nil => intro acc n v _ _ hfv; simp [firstValAttrs] at hfv
  | cons p rest ih =>
    intro acc n v hnd hc hfv
    obtain ⟨m2, a⟩ := p
    simp only [firstValAttrs] at hfv
    simp only [hintsAttrLoop]
    by_cases hm : (m2 == n) = true
    · have hm2 : m2 = n := by simpa using hm
      subst hm2
      rw [if_pos hm] at hfv
      cases a with
      | val w =>
        have hw : w = v := by simpa using hfv
        subst hw
        rw [if_neg (by simp [hc, hnd])]
        show lookupMInfo (hintsAttrLoop hints rest
            (acc ++ [mkMInfo m2 (hintFor hints m2 w) (some w)])) m2
          = some (mkMInfo m2 (hintFor hints m2 w) (some w))
        obtain ⟨ext, hext⟩ :=
          hintsAttrLoop_extends hints rest (acc ++ [mkMInfo m2 (hintFor hints m2 w) (some w)])
        rw [hext, List.append_assoc]
        rw [lookupMInfo_append_of_none _ _ _
          (lookupMInfo_eq_none_of_containsName_false acc m2 hc)]
        simp [lookupMInfo, mkMInfo]
      | func =>
        by_cases hcc : (containsName acc m2 || strStartsUS m2) = true
        · rw [if_pos hcc]; exact ih acc m2 v hnd hc hfv
        · rw [if_neg hcc]; exact ih acc m2 v hnd hc hfv
    · simp only [Bool.not_eq_true] at hm
      rw [if_neg (by simp [hm])] at hfv
      by_cases hcc : (containsName acc m2 || strStartsUS m2) = true
      · rw [if_pos hcc]; exact ih acc n v hnd hc hfv
      · rw [if_neg hcc]
        cases a with
        | func => exact ih acc n v hnd hc hfv
        | val w =>
          refine ih _ n v hnd ?_ hfv
          rw [containsName_append_single]
          simp [hc, mkMInfo, hm]

/-- The ancestor walk records, for a fresh non-dunder name, the first
plain value met along the walk, with the merged hint and that default. -/
theorem hintsLayersLoop_records (hints : List (String × TypeForm)) (layers : List Layer) :
    ∀ acc n v, strStartsUS n = false → containsName acc n = false →
      firstValLayers layers n = some v →
      lookupMInfo (hintsLayersLoop hints layers acc) n
        = some (mkMInfo n (hintFor hints n v) (some v)) := by
  induction layers with
  | nil => intro acc n v _ _ hfv; simp [firstValLayers] at hfv
  | cons layer rest ih =>
    intro acc n v hnd hc hfv
    simp only [firstValLayers] at hfv
    simp only [hintsLayersLoop]
    rcases hfa : firstValAttrs layer.attrs n with _ | w
    · simp only [hfa] at hfv
      exact ih _ n v hnd (hintsAttrLoop_not_contains hints layer.attrs acc n hfa hc) hfv
    · simp only [hfa] at hfv
      have hw : w = v := by simpa using hfv
      subst hw
      have h1 := hintsAttrLoop_records hints layer.attrs acc n w hnd hc hfa
      obtain ⟨ext, hext⟩ :=
        hintsLayersLoop_extends hints rest (hintsAttrLoop hints layer.attrs acc)
      rw [hext]
      exact lookupMInfo_append_of_some _ _ _ _ h1

/-- C7: most-base member wins.  `type_hints` walks the ancestor chain
from most base to most derived; for a non-dunder member whose first
plain class-body value along that walk is `v`, the returned mapping
holds the entry recorded at that first sighting — merged hint, that
value as default — and no later (more derived) definition replaces it. -/
theorem type_hints_most_base_entry (c : ClassD) (n : String) (v : Value)
    (hnd : strStartsUS n = false)
    (hfv : firstValLayers c.layers.reverse n = some v) :
    lookupMInfo (typeHintsC c) n
      = some (mkMInfo n (hintFor (mergedHints c) n v) (some v)) := by
  have h1 := hintsLayersLoop_records (mergedHints c) c.layers.reverse [] n v hnd rfl hfv
  obtain ⟨ext, hext⟩ :=
    hintsAnnotLoop_extends (mergedHints c) (hintsLayersLoop (mergedHints c) c.layers.reverse [])
  show lookupMInfo (hintsAnnotLoop (mergedHints c)
      (hintsLayersLoop (mergedHints c) c.layers.reverse [])) n = _
  rw [hext]
  exact lookupMInfo_append_of_some _ _ _ _ h1

/-- Concrete two-layer class exercising the most-base rule: the base
layer defines `x: int = 1`, the derived layer overrides with
`x: str = "d"`; the recorded entry keeps the base default `1` under the
merged (derived) hint. -/
theorem type_hints_most_base_entry_witness :
    strStartsUS "x" = false ∧
    lookupMInfo (typeHintsC ⟨[⟨[("x", ClsAttr.val (Value.str "d"))], [("x", TypeForm.strT)]⟩,
        ⟨[("x", ClsAttr.val (Value.int 1))], [("x", TypeForm.intT)]⟩]⟩) "x"
      = some (mkMInfo "x"
          (hintFor (mergedHints ⟨[⟨[("x", ClsAttr.val (Value.str "d"))], [("x", TypeForm.strT)]⟩,
              ⟨[("x", ClsAttr.val (Value.int 1))], [("x", TypeForm.intT)]⟩]⟩)
            "x" (Value.int 1))
          (some (Value.int 1))) :=
  ⟨rfl, type_hints_most_base_entry _ "x" (Value.int 1) rfl rfl⟩
